import Mathlib

/-!
Verification of the narrow-phase contact-generation core of the `ncollide`
collision-detection library.  The Rust sources are shallowly embedded over the
real numbers: `f32/f64` scalars become `ℝ`, `na::Point3/Vector3` become `V3`,
rigid isometries become a rotation matrix plus a translation vector, fallible
or panicking code returns `Option`.
-/

namespace NCollide

/-- 3-dimensional vector (also used for points), modelling `na::Vector3<N>` /
`na::Point3<N>` with `N` interpreted as `ℝ`. -/
@[ext]
structure V3 where
  x : ℝ
  y : ℝ
  z : ℝ

namespace V3

def zero : V3 := ⟨0, 0, 0⟩

instance : Zero V3 := ⟨zero⟩

theorem zero_def : (0 : V3) = ⟨0, 0, 0⟩ := rfl

@[simp] theorem x_zero : V3.x 0 = 0 := rfl
@[simp] theorem y_zero : V3.y 0 = 0 := rfl
@[simp] theorem z_zero : V3.z 0 = 0 := rfl

def add (u v : V3) : V3 := ⟨u.x + v.x, u.y + v.y, u.z + v.z⟩

def sub (u v : V3) : V3 := ⟨u.x - v.x, u.y - v.y, u.z - v.z⟩

def neg (u : V3) : V3 := ⟨-u.x, -u.y, -u.z⟩

def smul (a : ℝ) (u : V3) : V3 := ⟨a * u.x, a * u.y, a * u.z⟩

instance : Add V3 := ⟨add⟩
instance : Sub V3 := ⟨sub⟩
instance : Neg V3 := ⟨neg⟩
instance : SMul ℝ V3 := ⟨smul⟩

@[simp] theorem add_def (u v : V3) : u + v = ⟨u.x + v.x, u.y + v.y, u.z + v.z⟩ := rfl
@[simp] theorem sub_def (u v : V3) : u - v = ⟨u.x - v.x, u.y - v.y, u.z - v.z⟩ := rfl
@[simp] theorem neg_def (u : V3) : -u = ⟨-u.x, -u.y, -u.z⟩ := rfl
@[simp] theorem smul_def (a : ℝ) (u : V3) : a • u = ⟨a * u.x, a * u.y, a * u.z⟩ := rfl

/-- `na::dot`. -/
def dot (u v : V3) : ℝ := u.x * v.x + u.y * v.y + u.z * v.z

/-- `na::cross`. -/
def cross (u v : V3) : V3 :=
  ⟨u.y * v.z - u.z * v.y, u.z * v.x - u.x * v.z, u.x * v.y - u.y * v.x⟩

/-- `na::norm_squared`. -/
def normSq (u : V3) : ℝ := dot u u

/-- `na::norm`. -/
noncomputable def norm (u : V3) : ℝ := Real.sqrt (normSq u)

/-- `na::normalize`: division by the norm (junk value `0` when the norm is `0`,
where the floating-point original would produce NaNs). -/
noncomputable def normalize (u : V3) : V3 := (norm u)⁻¹ • u

theorem normSq_nonneg (u : V3) : 0 ≤ normSq u := by
  have hx : 0 ≤ u.x * u.x := mul_self_nonneg _
  have hy : 0 ≤ u.y * u.y := mul_self_nonneg _
  have hz : 0 ≤ u.z * u.z := mul_self_nonneg _
  unfold normSq dot
  linarith

theorem norm_nonneg (u : V3) : 0 ≤ norm u := Real.sqrt_nonneg _

theorem norm_sq_eq (u : V3) : norm u * norm u = normSq u := by
  unfold norm
  exact Real.mul_self_sqrt (normSq_nonneg u)

theorem normSq_eq_zero_iff (u : V3) : normSq u = 0 ↔ u = 0 := by
  constructor
  · intro h
    have hx : 0 ≤ u.x * u.x := mul_self_nonneg _
    have hy : 0 ≤ u.y * u.y := mul_self_nonneg _
    have hz : 0 ≤ u.z * u.z := mul_self_nonneg _
    have hsum : u.x * u.x + u.y * u.y + u.z * u.z = 0 := h
    have hx0 : u.x * u.x = 0 := by linarith
    have hy0 : u.y * u.y = 0 := by linarith
    have hz0 : u.z * u.z = 0 := by linarith
    ext <;> simp [zero_def]
    · exact mul_self_eq_zero.mp hx0
    · exact mul_self_eq_zero.mp hy0
    · exact mul_self_eq_zero.mp hz0
  · intro h; subst h; simp [normSq, dot, zero_def]

theorem norm_pos_of_ne_zero {u : V3} (h : u ≠ 0) : 0 < norm u := by
  have h1 : normSq u ≠ 0 := fun hc => h ((normSq_eq_zero_iff u).mp hc)
  have h2 : 0 < normSq u := lt_of_le_of_ne (normSq_nonneg u) (Ne.symm h1)
  unfold norm
  exact Real.sqrt_pos.mpr h2

theorem norm_eq_zero_iff (u : V3) : norm u = 0 ↔ u = 0 := by
  constructor
  · intro h
    by_contra hc
    exact absurd h (ne_of_gt (norm_pos_of_ne_zero hc))
  · intro h; subst h
    unfold norm
    have : normSq (0 : V3) = 0 := (normSq_eq_zero_iff 0).mpr rfl
    rw [this, Real.sqrt_zero]

end V3

/-- Row-major 3×3 matrix: the linear (rotational) part of an isometry. -/
structure Mat3 where
  r1 : V3
  r2 : V3
  r3 : V3

namespace Mat3

/-- Apply the matrix to a vector. -/
def apply (m : Mat3) (v : V3) : V3 := ⟨V3.dot m.r1 v, V3.dot m.r2 v, V3.dot m.r3 v⟩

/-- Apply the transpose to a vector.  For a rigid transform the linear part is a
rotation, whose inverse is its transpose; this models
`inverse_transform_vector` on the rotational part. -/
def applyTranspose (m : Mat3) (v : V3) : V3 :=
  ⟨m.r1.x * v.x + m.r2.x * v.y + m.r3.x * v.z,
   m.r1.y * v.x + m.r2.y * v.y + m.r3.y * v.z,
   m.r1.z * v.x + m.r2.z * v.y + m.r3.z * v.z⟩

def identity : Mat3 := ⟨⟨1, 0, 0⟩, ⟨0, 1, 0⟩, ⟨0, 0, 1⟩⟩

@[simp] theorem identity_apply (v : V3) : identity.apply v = v := by
  unfold identity apply V3.dot
  ext <;> simp

@[simp] theorem identity_applyTranspose (v : V3) : identity.applyTranspose v = v := by
  unfold identity applyTranspose
  ext <;> simp

end Mat3

/-- A rigid isometry `m`: rotation part `rot` (assumed orthogonal) and
translation `tr`, modelling the `Isometry` trait bound `M: Isometry<P>`. -/
structure Iso3 where
  rot : Mat3
  tr : V3

namespace Iso3

/-- `m.transform_point(p)`. -/
def transformPoint (m : Iso3) (p : V3) : V3 := m.rot.apply p + m.tr

/-- `m.transform_unit_vector(v)` / `m.transform_vector(v)`: rotation only. -/
def transformUnitVector (m : Iso3) (v : V3) : V3 := m.rot.apply v

/-- `m.inverse_transform_unit_vector(v)`: the inverse rotation, i.e. the
transpose for a rigid transform. -/
def inverseTransformUnitVector (m : Iso3) (v : V3) : V3 := m.rot.applyTranspose v

def identity : Iso3 := ⟨Mat3.identity, 0⟩

@[simp] theorem identity_transformPoint (p : V3) : identity.transformPoint p = p := by
  unfold identity transformPoint
  simp [V3.zero_def]

@[simp] theorem identity_transformUnitVector (v : V3) :
    identity.transformUnitVector v = v := by
  unfold identity transformUnitVector
  simp

@[simp] theorem identity_inverseTransformUnitVector (v : V3) :
    identity.inverseTransformUnitVector v = v := by
  unfold identity inverseTransformUnitVector
  simp

end Iso3

/-- `na::Unit::try_new_and_get(v, min_norm)`: normalizes `v`, returning the
unit vector and the norm, or `none` when the norm does not exceed `min_norm`. -/
noncomputable def tryNewAndGet (v : V3) (minNorm : ℝ) : Option (V3 × ℝ) :=
  if minNorm < v.norm then some (v.normalize, v.norm) else none

/-- `shape::FeatureId` (only its identity matters to the claims). -/
inductive FeatureId where
  | Vertex (i : ℕ)
  | Edge (i : ℕ)
  | Face (i : ℕ)
  | Unknown
  deriving DecidableEq

/-- Modelled from the spec: `bounding_volume::PolyhedralCone` is not under
`src/`.  Per the spec it is the "set of generator directions bounding
admissible normals for a feature (one generator for a face-like feature, two
for an edge-like feature, empty/degenerate for a vertex-like feature)". -/
structure PolyhedralCone where
  generators : List V3

namespace PolyhedralCone

/-- `PolyhedralCone::new()`: empty/degenerate cone. -/
def new : PolyhedralCone := ⟨[]⟩

/-- `PolyhedralCone::clear()`. -/
def clear (_c : PolyhedralCone) : PolyhedralCone := ⟨[]⟩

/-- `PolyhedralCone::add_generator(g)`. -/
def add_generator (c : PolyhedralCone) (g : V3) : PolyhedralCone :=
  ⟨c.generators ++ [g]⟩

/-- Membership of a direction in the convex cone spanned by a list of
generators: the direction is a non-negative combination of the generators.  In
particular the cone spanned by the empty generator list contains only the zero
vector, so it contains no unit direction (the spec's "empty/degenerate" cone of
a vertex-like feature). -/
def inSpannedCone : List V3 → V3 → Prop
  | [], d => d = 0
  | g :: gs, d => ∃ a : ℝ, 0 ≤ a ∧ inSpannedCone gs (d - a • g)

/-- Modelled from the spec: the implementation of
`PolyhedralCone::polar_contains_dir` is not under `src/`.  The spec describes
the sign-resolution test of `contact()` as checking whether the candidate
direction (or its negation), expressed in a side's local frame, "lies inside
that side's normal cone", so we model the test as membership in the cone
spanned by the generators. -/
def polarContainsDir (c : PolyhedralCone) (d : V3) : Prop :=
  inSpannedCone c.generators d

/-- `PolyhedralCone::transform_by(m)`: rotate every generator. -/
def transform_by (c : PolyhedralCone) (m : Iso3) : PolyhedralCone :=
  ⟨c.generators.map m.transformUnitVector⟩

end PolyhedralCone

/-- `query::Contact`: world point on each side, normal, signed depth
(positive = penetration). -/
@[ext]
structure Contact where
  world1 : V3
  world2 : V3
  normal : V3
  depth : ℝ

/-- The `KinematicVariant` enum of
`ncollide_geometry/query/contacts_internal/contact_kinematic.rs`: each side is
classified Point, Line (with direction) or Plane; the last three combinations
are invalid at evaluation time. -/
inductive KinematicVariant where
  | PlanePoint
  | PointPlane
  | PointPoint
  | PointLine (dir2 : V3)
  | LinePoint (dir1 : V3)
  | LineLine (dir1 : V3) (dir2 : V3)
  | PlanePlane
  | PlaneLine (dir2 : V3)
  | LinePlane (dir1 : V3)

/-- The role (Point/Line/Plane) of one side of a kinematic variant. -/
inductive FeatureRole where
  | point
  | line
  | plane
  deriving DecidableEq

namespace KinematicVariant

/-- Role of side 1. -/
def role1 : KinematicVariant → FeatureRole
  | PlanePoint => .plane
  | PointPlane => .point
  | PointPoint => .point
  | PointLine _ => .point
  | LinePoint _ => .line
  | LineLine _ _ => .line
  | PlanePlane => .plane
  | PlaneLine _ => .plane
  | LinePlane _ => .line

/-- Role of side 2. -/
def role2 : KinematicVariant → FeatureRole
  | PlanePoint => .point
  | PointPlane => .plane
  | PointPoint => .point
  | PointLine _ => .line
  | LinePoint _ => .point
  | LineLine _ _ => .line
  | PlanePlane => .plane
  | PlaneLine _ => .line
  | LinePlane _ => .plane

/-- Side-1 line direction carried by the variant, if any. -/
def dir1 : KinematicVariant → Option V3
  | LinePoint d => some d
  | LineLine d _ => some d
  | LinePlane d => some d
  | _ => none

/-- Side-2 line direction carried by the variant, if any. -/
def dir2 : KinematicVariant → Option V3
  | PointLine d => some d
  | LineLine _ d => some d
  | PlaneLine d => some d
  | _ => none

/-- Swap the two sides of a variant (used to state that the side-1 and side-2
transition tables are mirror images). -/
def mirror : KinematicVariant → KinematicVariant
  | PlanePoint => PointPlane
  | PointPlane => PlanePoint
  | PointPoint => PointPoint
  | PointLine d => LinePoint d
  | LinePoint d => PointLine d
  | LineLine d1 d2 => LineLine d2 d1
  | PlanePlane => PlanePlane
  | PlaneLine d => LinePlane d
  | LinePlane d => PlaneLine d

/-- The three structurally invalid combinations. -/
def isInvalid : KinematicVariant → Prop
  | PlanePlane => True
  | PlaneLine _ => True
  | LinePlane _ => True
  | _ => False

end KinematicVariant

/-- `ContactKinematic<P>`. -/
structure ContactKinematic where
  local1 : V3
  local2 : V3
  normals1 : PolyhedralCone
  normals2 : PolyhedralCone
  margin1 : ℝ
  margin2 : ℝ
  feature1 : FeatureId
  feature2 : FeatureId
  variant : KinematicVariant

namespace ContactKinematic

/-- `ContactKinematic::new()`. -/
def new : ContactKinematic :=
  { local1 := 0
    local2 := 0
    margin1 := 0
    margin2 := 0
    normals1 := PolyhedralCone.new
    normals2 := PolyhedralCone.new
    feature1 := FeatureId.Unknown
    feature2 := FeatureId.Unknown
    variant := KinematicVariant.PointPoint }

/-- `set_dilation1`. -/
def set_dilation1 (k : ContactKinematic) (margin : ℝ) : ContactKinematic :=
  { k with margin1 := margin }

/-- `set_dilation2`. -/
def set_dilation2 (k : ContactKinematic) (margin : ℝ) : ContactKinematic :=
  { k with margin2 := margin }

/-- `set_plane1(fid, pt, normal)`. -/
def set_plane1 (k : ContactKinematic) (fid : FeatureId) (pt : V3) (normal : V3) :
    ContactKinematic :=
  { k with
    feature1 := fid
    local1 := pt
    normals1 := (k.normals1.clear).add_generator normal
    variant :=
      match k.variant with
      | .PointPlane => .PlanePlane
      | .PointPoint => .PlanePoint
      | .PointLine dir2 => .PlaneLine dir2
      | .LinePoint _ => .PlanePoint
      | .LineLine _ dir2 => .PlaneLine dir2
      | .LinePlane _ => .PlanePlane
      | .PlanePoint => k.variant
      | .PlaneLine _ => k.variant
      | .PlanePlane => k.variant }

/-- `set_plane2(fid, pt, normal)`. -/
def set_plane2 (k : ContactKinematic) (fid : FeatureId) (pt : V3) (normal : V3) :
    ContactKinematic :=
  { k with
    feature2 := fid
    local2 := pt
    normals2 := (k.normals2.clear).add_generator normal
    variant :=
      match k.variant with
      | .PlanePoint => .PlanePlane
      | .PointPoint => .PointPlane
      | .PointLine _ => .PointPlane
      | .LinePoint dir1 => .LinePlane dir1
      | .LineLine dir1 _ => .LinePlane dir1
      | .PlaneLine _ => .PlanePlane
      | .PointPlane => k.variant
      | .PlanePlane => k.variant
      | .LinePlane _ => k.variant }

/-- `set_line1(fid, pt, dir, normals)`. -/
def set_line1 (k : ContactKinematic) (fid : FeatureId) (pt : V3) (dir : V3)
    (normals : PolyhedralCone) : ContactKinematic :=
  { k with
    feature1 := fid
    local1 := pt
    normals1 := normals
    variant :=
      match k.variant with
      | .PlanePoint => .LinePoint dir
      | .PointPlane => .LinePlane dir
      | .PointPoint => .LinePoint dir
      | .PointLine dir2 => .LineLine dir dir2
      | .LinePoint _ => .LinePoint dir
      | .LineLine _ dir2 => .LineLine dir dir2
      | .PlanePlane => .LinePlane dir
      | .PlaneLine dir2 => .LineLine dir dir2
      | .LinePlane _ => .LinePlane dir }

/-- `set_line2(fid, pt, dir, normals)`. -/
def set_line2 (k : ContactKinematic) (fid : FeatureId) (pt : V3) (dir : V3)
    (normals : PolyhedralCone) : ContactKinematic :=
  { k with
    feature2 := fid
    local2 := pt
    normals2 := normals
    variant :=
      match k.variant with
      | .PlanePoint => .PlaneLine dir
      | .PointPlane => .PointLine dir
      | .PointPoint => .PointLine dir
      | .PointLine _ => .PointLine dir
      | .LinePoint dir1 => .LineLine dir1 dir
      | .LineLine dir1 _ => .LineLine dir1 dir
      | .PlanePlane => .PlaneLine dir
      | .PlaneLine _ => .PlaneLine dir
      | .LinePlane dir1 => .LineLine dir1 dir }

/-- `set_point1(fid, pt, normals)`. -/
def set_point1 (k : ContactKinematic) (fid : FeatureId) (pt : V3)
    (normals : PolyhedralCone) : ContactKinematic :=
  { k with
    feature1 := fid
    local1 := pt
    normals1 := normals
    variant :=
      match k.variant with
      | .PlanePoint => .PointPoint
      | .LinePoint _ => .PointPoint
      | .LineLine _ dir2 => .PointLine dir2
      | .PlanePlane => .PointPlane
      | .PlaneLine dir2 => .PointLine dir2
      | .LinePlane _ => .PointPlane
      | .PointPlane => k.variant
      | .PointLine _ => k.variant
      | .PointPoint => k.variant }

/-- `set_point2(fid, pt, normals)`. -/
def set_point2 (k : ContactKinematic) (fid : FeatureId) (pt : V3)
    (normals : PolyhedralCone) : ContactKinematic :=
  { k with
    feature2 := fid
    local2 := pt
    normals2 := normals
    variant :=
      match k.variant with
      | .PointPlane => .PointPoint
      | .PointLine _ => .PointPoint
      | .LineLine dir1 _ => .LinePoint dir1
      | .PlanePlane => .PlanePoint
      | .PlaneLine _ => .PlanePoint
      | .LinePlane dir1 => .LinePoint dir1
      | .PlanePoint => k.variant
      | .PointPoint => k.variant
      | .LinePoint _ => k.variant }

end ContactKinematic

/-- Modelled from the spec: `closest_points_internal::line_against_line` is not
under `src/`.  Per the spec it computes "the pair of points realizing minimum
distance between the two lines (closest points between skew/parallel infinite
lines; near-parallel inputs must still produce a continuous, non-diverging
result)": the standard parametric solution, falling back to parameter `0` on
the first line when the lines are parallel (zero denominator). -/
noncomputable def lineAgainstLine (o1 d1 o2 d2 : V3) : V3 × V3 :=
  let r := o1 - o2
  let a := V3.dot d1 d1
  let e := V3.dot d2 d2
  let f := V3.dot d2 r
  let b := V3.dot d1 d2
  let c := V3.dot d1 r
  let denom := a * e - b * b
  let s := if denom = 0 then 0 else (b * f - c * e) / denom
  let t := (b * s + f) / e
  (o1 + s • d1, o2 + t • d2)

namespace ContactKinematic

open scoped Classical in
/-- `ContactKinematic::contact(m1, m2, default_normal1)`.

The Rust function returns `Option<Contact>`; the model returns
`Option (Option Contact)` where the outer `none` marks the one place the
source can panic (`self.normals1.generators()[0]` /
`self.normals2.generators()[0]` on an empty generator list) and
`some r` models a normal return of `r`.

`eps` stands for `P::Real::default_epsilon()`. -/
noncomputable def contact (eps : ℝ) (k : ContactKinematic) (m1 m2 : Iso3)
    (defaultNormal1 : V3) : Option (Option Contact) :=
  let world1 := m1.transformPoint k.local1
  let world2 := m2.transformPoint k.local2
  let finish : V3 → V3 → V3 → ℝ → Option (Option Contact) := fun w1 w2 normal depth =>
    some (some
      { world1 := w1 + k.margin1 • normal
        world2 := w2 + (-k.margin2) • normal
        normal := normal
        depth := depth + (k.margin1 + k.margin2) })
  match k.variant with
  | .PlanePoint =>
    match k.normals1.generators with
    | [] => none
    | g :: _ =>
      let normal := m1.transformUnitVector g
      let depth := -(V3.dot normal (world2 - world1))
      let w1 := world2 + depth • normal
      finish w1 world2 normal depth
  | .PointPlane =>
    match k.normals2.generators with
    | [] => none
    | g :: _ =>
      let worldNormal2 := m2.transformUnitVector g
      let depth := -(V3.dot worldNormal2 (world1 - world2))
      let w2 := world1 + depth • worldNormal2
      finish world1 w2 (-worldNormal2) depth
  | .PointPoint =>
    match tryNewAndGet (world2 - world1) eps with
    | some (n, d) =>
      let localN1 := m1.inverseTransformUnitVector n
      let localN2 := m2.inverseTransformUnitVector (-n)
      if k.normals1.polarContainsDir localN1 ∨ k.normals2.polarContainsDir localN2 then
        finish world1 world2 (-n) d
      else
        finish world1 world2 n (-d)
    | none =>
      finish world1 world2 (m1.transformUnitVector defaultNormal1) 0
  | .LinePoint dir1 =>
    let worldDir1 := m1.transformUnitVector dir1
    let shift0 := world2 - world1
    let proj := V3.dot worldDir1 shift0
    -- NOTE (source): the subtraction uses the untransformed `dir1`, not
    -- `world_dir1`.
    let shift := shift0 - proj • dir1
    match tryNewAndGet shift 0 with
    | some (n, d) =>
      let localN1 := m1.inverseTransformUnitVector n
      let localN2 := m2.inverseTransformUnitVector (-n)
      let w1 := world2 + (-shift)
      if k.normals1.polarContainsDir localN1 ∨ k.normals2.polarContainsDir localN2 then
        finish w1 world2 (-n) d
      else
        finish w1 world2 n (-d)
    | none =>
      finish world1 world2 (m1.transformUnitVector defaultNormal1) 0
  | .PointLine dir2 =>
    let worldDir2 := m2.transformUnitVector dir2
    let shift0 := world1 - world2
    let proj := V3.dot worldDir2 shift0
    -- NOTE (source): the subtraction uses the untransformed `dir2`, not
    -- `world_dir2`; the result is then negated so that `shift` points from
    -- side 1 to side 2.
    let shift := -(shift0 - proj • dir2)
    match tryNewAndGet shift 0 with
    | some (n, d) =>
      let localN1 := m1.inverseTransformUnitVector n
      let localN2 := m2.inverseTransformUnitVector (-n)
      let w2 := world1 + shift
      if k.normals1.polarContainsDir localN1 ∨ k.normals2.polarContainsDir localN2 then
        finish world1 w2 (-n) d
      else
        finish world1 w2 n (-d)
    | none =>
      finish world1 world2 (m1.transformUnitVector defaultNormal1) 0
  | .LineLine dir1 dir2 =>
    let worldDir1 := m1.transformUnitVector dir1
    let worldDir2 := m2.transformUnitVector dir2
    let pts := lineAgainstLine world1 worldDir1 world2 worldDir2
    let w1 := pts.1
    let w2 := pts.2
    match tryNewAndGet (w2 - w1) 0 with
    | some (n, d) =>
      let localN1 := m1.inverseTransformUnitVector n
      let localN2 := m2.inverseTransformUnitVector (-n)
      if k.normals1.polarContainsDir localN1 ∨ k.normals2.polarContainsDir localN2 then
        finish w1 w2 (-n) d
      else
        finish w1 w2 n (-d)
    | none =>
      finish w1 w2 (m1.transformUnitVector defaultNormal1) 0
  | .PlanePlane => some none
  | .PlaneLine _ => some none
  | .LinePlane _ => some none

/-- Along the public API a side classified as a plane always carries exactly
the one generator installed by `set_plane{1,2}`; this well-formedness
condition is what rules out the fail-fast panic of
`normals{1,2}.generators()[0]` inside `contact()`. -/
def PlaneSidesHaveNormal (k : ContactKinematic) : Prop :=
  (k.variant.role1 = .plane → k.normals1.generators ≠ []) ∧
  (k.variant.role2 = .plane → k.normals2.generators ≠ [])

theorem planeSidesHaveNormal_new : PlaneSidesHaveNormal new := by
  constructor <;> intro h <;> exact absurd h (by decide)

theorem planeSidesHaveNormal_set_plane1 (k : ContactKinematic) (fid : FeatureId)
    (pt : V3) (normal : V3) (h : PlaneSidesHaveNormal k) :
    PlaneSidesHaveNormal (k.set_plane1 fid pt normal) := by
  obtain ⟨h1, h2⟩ := h
  constructor
  · intro _
    simp [set_plane1, PolyhedralCone.clear, PolyhedralCone.add_generator]
  · intro hr
    apply h2
    cases hv : k.variant <;>
      simp [set_plane1, hv, KinematicVariant.role2] at hr ⊢ <;> try exact hr

theorem planeSidesHaveNormal_set_plane2 (k : ContactKinematic) (fid : FeatureId)
    (pt : V3) (normal : V3) (h : PlaneSidesHaveNormal k) :
    PlaneSidesHaveNormal (k.set_plane2 fid pt normal) := by
  obtain ⟨h1, h2⟩ := h
  constructor
  · intro hr
    apply h1
    cases hv : k.variant <;>
      simp [set_plane2, hv, KinematicVariant.role1] at hr ⊢ <;> try exact hr
  · intro _
    simp [set_plane2, PolyhedralCone.clear, PolyhedralCone.add_generator]

theorem planeSidesHaveNormal_set_point1 (k : ContactKinematic) (fid : FeatureId)
    (pt : V3) (normals : PolyhedralCone) (h : PlaneSidesHaveNormal k) :
    PlaneSidesHaveNormal (k.set_point1 fid pt normals) := by
  obtain ⟨_, h2⟩ := h
  constructor
  · intro hr
    exfalso
    cases hv : k.variant <;> simp [set_point1, hv, KinematicVariant.role1] at hr
  · intro hr
    apply h2
    cases hv : k.variant <;>
      simp [set_point1, hv, KinematicVariant.role2] at hr ⊢ <;> try exact hr

theorem planeSidesHaveNormal_set_point2 (k : ContactKinematic) (fid : FeatureId)
    (pt : V3) (normals : PolyhedralCone) (h : PlaneSidesHaveNormal k) :
    PlaneSidesHaveNormal (k.set_point2 fid pt normals) := by
  obtain ⟨h1, _⟩ := h
  constructor
  · intro hr
    apply h1
    cases hv : k.variant <;>
      simp [set_point2, hv, KinematicVariant.role1] at hr ⊢ <;> try exact hr
  · intro hr
    exfalso
    cases hv : k.variant <;> simp [set_point2, hv, KinematicVariant.role2] at hr

theorem planeSidesHaveNormal_set_line1 (k : ContactKinematic) (fid : FeatureId)
    (pt : V3) (dir : V3) (normals : PolyhedralCone) (h : PlaneSidesHaveNormal k) :
    PlaneSidesHaveNormal (k.set_line1 fid pt dir normals) := by
  obtain ⟨_, h2⟩ := h
  constructor
  · intro hr
    exfalso
    cases hv : k.variant <;> simp [set_line1, hv, KinematicVariant.role1] at hr
  · intro hr
    apply h2
    cases hv : k.variant <;>
      simp [set_line1, hv, KinematicVariant.role2] at hr ⊢ <;> try exact hr

theorem planeSidesHaveNormal_set_line2 (k : ContactKinematic) (fid : FeatureId)
    (pt : V3) (dir : V3) (normals : PolyhedralCone) (h : PlaneSidesHaveNormal k) :
    PlaneSidesHaveNormal (k.set_line2 fid pt dir normals) := by
  obtain ⟨h1, _⟩ := h
  constructor
  · intro hr
    apply h1
    cases hv : k.variant <;>
      simp [set_line2, hv, KinematicVariant.role1] at hr ⊢ <;> try exact hr
  · intro hr
    exfalso
    cases hv : k.variant <;> simp [set_line2, hv, KinematicVariant.role2] at hr

/-- C3: for every kinematic state (with the API invariant that a plane side
carries its normal generator, ruling out the fail-fast panic) and every pair
of transforms, `contact(m1, m2, default_normal)` returns `None` if and only if
the current variant is one of the three structurally invalid combinations
Plane×Plane, Plane×Line or Line×Plane; for each of the six valid variants it
always returns `Some` contact — degeneracies are absorbed by the
default-normal fallback, never propagated as `None`. -/
theorem contact_none_iff_invalid (eps : ℝ) (k : ContactKinematic) (m1 m2 : Iso3)
    (dn : V3) (h : PlaneSidesHaveNormal k) :
    (contact eps k m1 m2 dn = some none ↔ k.variant.isInvalid) ∧
    (¬ k.variant.isInvalid → ∃ c, contact eps k m1 m2 dn = some (some c)) := by
  obtain ⟨h1, h2⟩ := h
  obtain ⟨l1, l2, n1, n2, mg1, mg2, f1, f2, v⟩ := k
  cases v
  case PlanePoint =>
    obtain ⟨g, gs, hg⟩ := List.exists_cons_of_ne_nil (h1 rfl)
    simp only at hg
    constructor
    · simp [contact, hg, KinematicVariant.isInvalid]
    · intro _
      simp only [contact, hg]
      exact ⟨_, rfl⟩
  case PointPlane =>
    obtain ⟨g, gs, hg⟩ := List.exists_cons_of_ne_nil (h2 rfl)
    simp only at hg
    constructor
    · simp [contact, hg, KinematicVariant.isInvalid]
    · intro _
      simp only [contact, hg]
      exact ⟨_, rfl⟩
  case PointPoint =>
    constructor
    · simp only [contact, KinematicVariant.isInvalid, iff_false]
      split
      · split <;> simp
      · simp
    · intro _
      simp only [contact]
      split
      · split
        · exact ⟨_, rfl⟩
        · exact ⟨_, rfl⟩
      · exact ⟨_, rfl⟩
  case LinePoint dir1 =>
    constructor
    · simp only [contact, KinematicVariant.isInvalid, iff_false]
      split
      · split <;> simp
      · simp
    · intro _
      simp only [contact]
      split
      · split
        · exact ⟨_, rfl⟩
        · exact ⟨_, rfl⟩
      · exact ⟨_, rfl⟩
  case PointLine dir2 =>
    constructor
    · simp only [contact, KinematicVariant.isInvalid, iff_false]
      split
      · split <;> simp
      · simp
    · intro _
      simp only [contact]
      split
      · split
        · exact ⟨_, rfl⟩
        · exact ⟨_, rfl⟩
      · exact ⟨_, rfl⟩
  case LineLine dir1 dir2 =>
    constructor
    · simp only [contact, KinematicVariant.isInvalid, iff_false]
      split
      · split <;> simp
      · simp
    · intro _
      simp only [contact]
      split
      · split
        · exact ⟨_, rfl⟩
        · exact ⟨_, rfl⟩
      · exact ⟨_, rfl⟩
  case PlanePlane =>
    exact ⟨by simp [contact, KinematicVariant.isInvalid], fun hno => absurd trivial hno⟩
  case PlaneLine dir2 =>
    exact ⟨by simp [contact, KinematicVariant.isInvalid], fun hno => absurd trivial hno⟩
  case LinePlane dir1 =>
    exact ⟨by simp [contact, KinematicVariant.isInvalid], fun hno => absurd trivial hno⟩

/-- The margin step of `contact()`: offset the side-1 world point by `a` along
the normal, the side-2 world point by `b` against the normal, and add `a + b`
to the depth. -/
def marginShift (a b : ℝ) (c : Contact) : Contact :=
  { world1 := c.world1 + a • c.normal
    world2 := c.world2 - b • c.normal
    normal := c.normal
    depth := c.depth + (a + b) }

theorem mapShift_somesome (a b : ℝ) (c c0 : Contact) (h : c = marginShift a b c0) :
    (some (some c) : Option (Option Contact)) =
      Option.map (Option.map (marginShift a b)) (some (some c0)) := by
  simp [h]

set_option maxHeartbeats 2000000 in
/-- C6: for every variant and any margins, the contact returned by `contact()`
is the zero-margin (raw) contact with the side-1 world point offset by
`margin1` along the normal, the side-2 world point offset by `margin2` against
the normal, and both margins added to the depth; consequently increasing
either side's margin by `δ` (all other inputs fixed) adds exactly `δ` to the
reported depth and shifts only that side's world point by `δ` along the
normal. -/
theorem contact_margin_offsets (eps : ℝ) (k : ContactKinematic) (m1 m2 : Iso3)
    (dn : V3) :
    (contact eps k m1 m2 dn =
      (contact eps ((k.set_dilation1 0).set_dilation2 0) m1 m2 dn).map
        (Option.map (marginShift k.margin1 k.margin2))) ∧
    (∀ δ : ℝ,
      contact eps (k.set_dilation1 (k.margin1 + δ)) m1 m2 dn =
        (contact eps k m1 m2 dn).map (Option.map (marginShift δ 0)) ∧
      contact eps (k.set_dilation2 (k.margin2 + δ)) m1 m2 dn =
        (contact eps k m1 m2 dn).map (Option.map (marginShift 0 δ))) := by
  obtain ⟨l1, l2, n1, n2, mg1, mg2, f1, f2, v⟩ := k
  have base : ∀ (a b : ℝ),
      contact eps ⟨l1, l2, n1, n2, a, b, f1, f2, v⟩ m1 m2 dn =
        (contact eps ⟨l1, l2, n1, n2, 0, 0, f1, f2, v⟩ m1 m2 dn).map
          (Option.map (marginShift a b)) := by
    intro a b
    cases v
    case PlanePoint =>
      simp only [contact]
      cases hg : n1.generators with
      | nil => rfl
      | cons g gs =>
        exact mapShift_somesome _ _ _ _ (by ext <;> simp [marginShift] <;> ring)
    case PointPlane =>
      simp only [contact]
      cases hg : n2.generators with
      | nil => rfl
      | cons g gs =>
        exact mapShift_somesome _ _ _ _ (by ext <;> simp [marginShift] <;> ring)
    case PointPoint =>
      simp only [contact]
      split
      case h_1 p n d htry =>
        split_ifs <;>
          exact mapShift_somesome _ _ _ _ (by ext <;> simp [marginShift] <;> ring)
      case h_2 p htry =>
        exact mapShift_somesome _ _ _ _ (by ext <;> simp [marginShift] <;> ring)
    case LinePoint dir1 =>
      simp only [contact]
      split
      case h_1 p n d htry =>
        split_ifs <;>
          exact mapShift_somesome _ _ _ _ (by ext <;> simp [marginShift] <;> ring)
      case h_2 p htry =>
        exact mapShift_somesome _ _ _ _ (by ext <;> simp [marginShift] <;> ring)
    case PointLine dir2 =>
      simp only [contact]
      split
      case h_1 p n d htry =>
        split_ifs <;>
          exact mapShift_somesome _ _ _ _ (by ext <;> simp [marginShift] <;> ring)
      case h_2 p htry =>
        exact mapShift_somesome _ _ _ _ (by ext <;> simp [marginShift] <;> ring)
    case LineLine dir1 dir2 =>
      simp only [contact]
      split
      case h_1 p n d htry =>
        split_ifs <;>
          exact mapShift_somesome _ _ _ _ (by ext <;> simp [marginShift] <;> ring)
      case h_2 p htry =>
        exact mapShift_somesome _ _ _ _ (by ext <;> simp [marginShift] <;> ring)
    case PlanePlane => rfl
    case PlaneLine dir2 => rfl
    case LinePlane dir1 => rfl
  refine ⟨?_, fun δ => ⟨?_, ?_⟩⟩
  · simp only [set_dilation1, set_dilation2]
    exact base mg1 mg2
  · simp only [set_dilation1]
    rw [base (mg1 + δ) mg2, base mg1 mg2, Option.map_map]
    refine Option.map_congr ?_
    intro oc _
    simp only [Function.comp, Option.map_map]
    refine Option.map_congr ?_
    intro c _
    unfold marginShift
    ext <;> simp <;> ring
  · simp only [set_dilation2]
    rw [base mg1 (mg2 + δ), base mg1 mg2, Option.map_map]
    refine Option.map_congr ?_
    intro oc _
    simp only [Function.comp, Option.map_map]
    refine Option.map_congr ?_
    intro c _
    unfold marginShift
    ext <;> simp <;> ring

/-- C7: each `set_point{1,2}` / `set_line{1,2}` / `set_plane{1,2}` call
replaces exactly its side's component of the variant with the new role
(installing the new feature id, anchor, normal cone and, for lines, the new
direction) while preserving the other side's role, direction, anchor, normal
cone, feature id and margin; the side-1 and side-2 transition tables are
mirror images of each other; and no transition produces an inconsistent
(feature, role) pairing: after `set_X{i}` side `i` of the variant has exactly
role `X`. -/
theorem set_ops_transition_table (k : ContactKinematic) (fid : FeatureId)
    (pt dir normal : V3) (normals : PolyhedralCone) :
    -- set_point1: side 1 becomes a point, side 2 untouched.
    ((k.set_point1 fid pt normals).variant.role1 = .point ∧
     (k.set_point1 fid pt normals).variant.role2 = k.variant.role2 ∧
     (k.set_point1 fid pt normals).variant.dir2 = k.variant.dir2 ∧
     (k.set_point1 fid pt normals).feature1 = fid ∧
     (k.set_point1 fid pt normals).local1 = pt ∧
     (k.set_point1 fid pt normals).normals1 = normals ∧
     (k.set_point1 fid pt normals).local2 = k.local2 ∧
     (k.set_point1 fid pt normals).normals2 = k.normals2 ∧
     (k.set_point1 fid pt normals).feature2 = k.feature2 ∧
     (k.set_point1 fid pt normals).margin2 = k.margin2) ∧
    -- set_line1: side 1 becomes a line with the new direction.
    ((k.set_line1 fid pt dir normals).variant.role1 = .line ∧
     (k.set_line1 fid pt dir normals).variant.dir1 = some dir ∧
     (k.set_line1 fid pt dir normals).variant.role2 = k.variant.role2 ∧
     (k.set_line1 fid pt dir normals).variant.dir2 = k.variant.dir2 ∧
     (k.set_line1 fid pt dir normals).feature1 = fid ∧
     (k.set_line1 fid pt dir normals).local1 = pt ∧
     (k.set_line1 fid pt dir normals).normals1 = normals ∧
     (k.set_line1 fid pt dir normals).local2 = k.local2 ∧
     (k.set_line1 fid pt dir normals).normals2 = k.normals2 ∧
     (k.set_line1 fid pt dir normals).feature2 = k.feature2 ∧
     (k.set_line1 fid pt dir normals).margin2 = k.margin2) ∧
    -- set_plane1: side 1 becomes a plane whose cone is the single normal.
    ((k.set_plane1 fid pt normal).variant.role1 = .plane ∧
     (k.set_plane1 fid pt normal).variant.role2 = k.variant.role2 ∧
     (k.set_plane1 fid pt normal).variant.dir2 = k.variant.dir2 ∧
     (k.set_plane1 fid pt normal).feature1 = fid ∧
     (k.set_plane1 fid pt normal).local1 = pt ∧
     (k.set_plane1 fid pt normal).normals1.generators = [normal] ∧
     (k.set_plane1 fid pt normal).local2 = k.local2 ∧
     (k.set_plane1 fid pt normal).normals2 = k.normals2 ∧
     (k.set_plane1 fid pt normal).feature2 = k.feature2 ∧
     (k.set_plane1 fid pt normal).margin2 = k.margin2) ∧
    -- set_point2: side 2 becomes a point, side 1 untouched.
    ((k.set_point2 fid pt normals).variant.role2 = .point ∧
     (k.set_point2 fid pt normals).variant.role1 = k.variant.role1 ∧
     (k.set_point2 fid pt normals).variant.dir1 = k.variant.dir1 ∧
     (k.set_point2 fid pt normals).feature2 = fid ∧
     (k.set_point2 fid pt normals).local2 = pt ∧
     (k.set_point2 fid pt normals).normals2 = normals ∧
     (k.set_point2 fid pt normals).local1 = k.local1 ∧
     (k.set_point2 fid pt normals).normals1 = k.normals1 ∧
     (k.set_point2 fid pt normals).feature1 = k.feature1 ∧
     (k.set_point2 fid pt normals).margin1 = k.margin1) ∧
    -- set_line2: side 2 becomes a line with the new direction.
    ((k.set_line2 fid pt dir normals).variant.role2 = .line ∧
     (k.set_line2 fid pt dir normals).variant.dir2 = some dir ∧
     (k.set_line2 fid pt dir normals).variant.role1 = k.variant.role1 ∧
     (k.set_line2 fid pt dir normals).variant.dir1 = k.variant.dir1 ∧
     (k.set_line2 fid pt dir normals).feature2 = fid ∧
     (k.set_line2 fid pt dir normals).local2 = pt ∧
     (k.set_line2 fid pt dir normals).normals2 = normals ∧
     (k.set_line2 fid pt dir normals).local1 = k.local1 ∧
     (k.set_line2 fid pt dir normals).normals1 = k.normals1 ∧
     (k.set_line2 fid pt dir normals).feature1 = k.feature1 ∧
     (k.set_line2 fid pt dir normals).margin1 = k.margin1) ∧
    -- set_plane2: side 2 becomes a plane whose cone is the single normal.
    ((k.set_plane2 fid pt normal).variant.role2 = .plane ∧
     (k.set_plane2 fid pt normal).variant.role1 = k.variant.role1 ∧
     (k.set_plane2 fid pt normal).variant.dir1 = k.variant.dir1 ∧
     (k.set_plane2 fid pt normal).feature2 = fid ∧
     (k.set_plane2 fid pt normal).local2 = pt ∧
     (k.set_plane2 fid pt normal).normals2.generators = [normal] ∧
     (k.set_plane2 fid pt normal).local1 = k.local1 ∧
     (k.set_plane2 fid pt normal).normals1 = k.normals1 ∧
     (k.set_plane2 fid pt normal).feature1 = k.feature1 ∧
     (k.set_plane2 fid pt normal).margin1 = k.margin1) ∧
    -- the side-2 transition tables mirror the side-1 tables.
    ((k.set_point2 fid pt normals).variant =
      (({ k with variant := k.variant.mirror }).set_point1 fid pt normals).variant.mirror ∧
     (k.set_line2 fid pt dir normals).variant =
      (({ k with variant := k.variant.mirror }).set_line1 fid pt dir normals).variant.mirror ∧
     (k.set_plane2 fid pt normal).variant =
      (({ k with variant := k.variant.mirror }).set_plane1 fid pt normal).variant.mirror) := by
  obtain ⟨l1, l2, n1, n2, mg1, mg2, f1, f2, v⟩ := k
  refine ⟨⟨?_, ?_, ?_, rfl, rfl, rfl, rfl, rfl, rfl, rfl⟩,
          ⟨?_, ?_, ?_, ?_, rfl, rfl, rfl, rfl, rfl, rfl, rfl⟩,
          ⟨?_, ?_, ?_, rfl, rfl, rfl, rfl, rfl, rfl, rfl⟩,
          ⟨?_, ?_, ?_, rfl, rfl, rfl, rfl, rfl, rfl, rfl⟩,
          ⟨?_, ?_, ?_, ?_, rfl, rfl, rfl, rfl, rfl, rfl, rfl⟩,
          ⟨?_, ?_, ?_, rfl, rfl, rfl, rfl, rfl, rfl, rfl⟩,
          ⟨?_, ?_, ?_⟩⟩ <;>
    cases v <;> rfl

/-- The Point×Point state of claim C8: side-1 anchor at the origin, side-2
anchor at `(1.5, 0, 0)`, both margins zero, both anchors tracked as point
features (empty/degenerate normal cone) at each ball center. -/
noncomputable def kinC8 : ContactKinematic :=
  { local1 := ⟨0, 0, 0⟩
    local2 := ⟨3 / 2, 0, 0⟩
    normals1 := PolyhedralCone.new
    normals2 := PolyhedralCone.new
    margin1 := 0
    margin2 := 0
    feature1 := FeatureId.Vertex 0
    feature2 := FeatureId.Vertex 0
    variant := KinematicVariant.PointPoint }

theorem normSq_c8 : V3.normSq ⟨3 / 2, 0, 0⟩ = (3 / 2) * (3 / 2) := by
  unfold V3.normSq V3.dot
  norm_num

theorem norm_c8 : V3.norm ⟨3 / 2, 0, 0⟩ = 3 / 2 := by
  unfold V3.norm
  rw [normSq_c8, Real.sqrt_mul_self (by norm_num : (0:ℝ) ≤ 3 / 2)]

theorem normalize_c8 : V3.normalize ⟨3 / 2, 0, 0⟩ = ⟨1, 0, 0⟩ := by
  unfold V3.normalize
  rw [norm_c8]
  ext <;> norm_num

theorem contact_kinC8_eval :
    contact 0 kinC8 Iso3.identity Iso3.identity ⟨1, 0, 0⟩ =
      some (some ⟨⟨0, 0, 0⟩, ⟨3 / 2, 0, 0⟩, ⟨1, 0, 0⟩, -(3 / 2)⟩) := by
  simp only [contact, kinC8]
  norm_num [tryNewAndGet, norm_c8, normalize_c8, V3.ext_iff]
  constructor <;>
    norm_num [PolyhedralCone.polarContainsDir, PolyhedralCone.new,
      PolyhedralCone.inSpannedCone, V3.ext_iff]

/-- C4 (amended): for a Point×Point state whose transformed anchors are
distinct beyond the epsilon threshold, `contact()` produces a normal parallel
to `p2 - p1`, and the *raw* depth (the reported depth minus both margins) is
positive exactly when the candidate direction, or its negation, expressed in a
side's local frame, lies inside that side's normal cone for at least one side;
near-coincident anchors instead use the caller-supplied `default_normal`
transformed by `m1`, with raw depth 0. -/
theorem contact_pointPoint_characterization (eps : ℝ) (k : ContactKinematic)
    (m1 m2 : Iso3) (dn : V3) (hv : k.variant = KinematicVariant.PointPoint)
    (heps : 0 ≤ eps) :
    (eps < (m2.transformPoint k.local2 - m1.transformPoint k.local1).norm →
      ∃ c, contact eps k m1 m2 dn = some (some c) ∧
        (∃ t : ℝ, t ≠ 0 ∧
          c.normal = t • (m2.transformPoint k.local2 - m1.transformPoint k.local1)) ∧
        (0 < c.depth - (k.margin1 + k.margin2) ↔
          (k.normals1.polarContainsDir (m1.inverseTransformUnitVector
              (m2.transformPoint k.local2 - m1.transformPoint k.local1).normalize) ∨
           k.normals2.polarContainsDir (m2.inverseTransformUnitVector
              (-(m2.transformPoint k.local2 - m1.transformPoint k.local1).normalize))))) ∧
    ((m2.transformPoint k.local2 - m1.transformPoint k.local1).norm ≤ eps →
      ∃ c, contact eps k m1 m2 dn = some (some c) ∧
        c.normal = m1.transformUnitVector dn ∧
        c.depth = k.margin1 + k.margin2) := by
  obtain ⟨l1, l2, n1, n2, mg1, mg2, f1, f2, v⟩ := k
  simp only at hv
  subst hv
  constructor
  · intro hlt
    have hpos : 0 < (m2.transformPoint l2 - m1.transformPoint l1).norm :=
      lt_of_le_of_lt heps hlt
    simp only [contact, tryNewAndGet, if_pos hlt]
    by_cases hc :
      n1.polarContainsDir (m1.inverseTransformUnitVector
        (m2.transformPoint l2 - m1.transformPoint l1).normalize) ∨
      n2.polarContainsDir (m2.inverseTransformUnitVector
        (-(m2.transformPoint l2 - m1.transformPoint l1).normalize))
    · rw [if_pos hc]
      refine ⟨_, rfl, ⟨-((m2.transformPoint l2 - m1.transformPoint l1).norm)⁻¹, ?_, ?_⟩, ?_⟩
      · exact neg_ne_zero.mpr (inv_ne_zero (ne_of_gt hpos))
      · unfold V3.normalize
        ext <;> simp <;> ring
      · simp only []
        constructor
        · intro _
          exact hc
        · intro _
          have : (m2.transformPoint l2 - m1.transformPoint l1).norm + (mg1 + mg2) -
              (mg1 + mg2) = (m2.transformPoint l2 - m1.transformPoint l1).norm := by ring
          rw [this]
          exact hpos
    · rw [if_neg hc]
      refine ⟨_, rfl, ⟨((m2.transformPoint l2 - m1.transformPoint l1).norm)⁻¹, ?_, ?_⟩, ?_⟩
      · exact inv_ne_zero (ne_of_gt hpos)
      · unfold V3.normalize
        ext <;> simp
      · simp only []
        constructor
        · intro hd
          exfalso
          have : -(m2.transformPoint l2 - m1.transformPoint l1).norm + (mg1 + mg2) -
              (mg1 + mg2) = -(m2.transformPoint l2 - m1.transformPoint l1).norm := by ring
          rw [this] at hd
          linarith
        · intro h
          exact absurd h hc
  · intro hle
    simp only [contact, tryNewAndGet, if_neg (not_lt.mpr hle)]
    refine ⟨_, rfl, rfl, by ring⟩

/-- The Point×Point state of the C4 counterexample: identity transforms, a
side-1 margin of 2, anchors one unit apart, point features on both sides. -/
noncomputable def kinC4 : ContactKinematic :=
  { local1 := ⟨0, 0, 0⟩
    local2 := ⟨1, 0, 0⟩
    normals1 := PolyhedralCone.new
    normals2 := PolyhedralCone.new
    margin1 := 2
    margin2 := 0
    feature1 := FeatureId.Vertex 0
    feature2 := FeatureId.Vertex 0
    variant := KinematicVariant.PointPoint }

theorem normSq_c4 : V3.normSq ⟨1, 0, 0⟩ = 1 * 1 := by
  unfold V3.normSq V3.dot
  norm_num

theorem norm_c4 : V3.norm ⟨1, 0, 0⟩ = 1 := by
  unfold V3.norm
  rw [normSq_c4, Real.sqrt_mul_self (by norm_num : (0:ℝ) ≤ 1)]

theorem normalize_c4 : V3.normalize ⟨1, 0, 0⟩ = ⟨1, 0, 0⟩ := by
  unfold V3.normalize
  rw [norm_c4]
  ext <;> norm_num

/-- C4 counterexample: with a side-1 margin of 2 and separated anchors one
unit apart (point features, so neither normal cone contains any direction),
the *returned* depth is `+1` — positive — even though the cone test fails on
both sides, refuting the claim that the returned depth is positive exactly
when the cone test succeeds. -/
theorem contact_kinC4_margin_cex :
    contact (1 / 2) kinC4 Iso3.identity Iso3.identity ⟨1, 0, 0⟩ =
      some (some ⟨⟨2, 0, 0⟩, ⟨1, 0, 0⟩, ⟨1, 0, 0⟩, 1⟩) ∧
    (0 : ℝ) < 1 ∧
    ¬ (PolyhedralCone.new.polarContainsDir (⟨1, 0, 0⟩ : V3) ∨
       PolyhedralCone.new.polarContainsDir (⟨-1, 0, 0⟩ : V3)) := by
  refine ⟨?_, by norm_num, ?_⟩
  · simp only [contact, kinC4]
    norm_num [tryNewAndGet, norm_c4, normalize_c4, V3.ext_iff]
    constructor <;>
      norm_num [PolyhedralCone.polarContainsDir, PolyhedralCone.new,
        PolyhedralCone.inSpannedCone, V3.ext_iff]
  · rintro (h | h) <;>
      norm_num [PolyhedralCone.polarContainsDir, PolyhedralCone.new,
        PolyhedralCone.inSpannedCone, V3.ext_iff] at h

/-- C4 witness: the characterization applied to separated concrete anchors. -/
theorem contact_pointPoint_characterization_witness :
    (kinC8.variant = KinematicVariant.PointPoint ∧ (0 : ℝ) ≤ 0) ∧
    ((0 < (Iso3.identity.transformPoint kinC8.local2 -
        Iso3.identity.transformPoint kinC8.local1).norm →
      ∃ c, contact 0 kinC8 Iso3.identity Iso3.identity ⟨1, 0, 0⟩ = some (some c) ∧
        (∃ t : ℝ, t ≠ 0 ∧
          c.normal = t • (Iso3.identity.transformPoint kinC8.local2 -
            Iso3.identity.transformPoint kinC8.local1)) ∧
        (0 < c.depth - (kinC8.margin1 + kinC8.margin2) ↔
          (kinC8.normals1.polarContainsDir (Iso3.identity.inverseTransformUnitVector
              (Iso3.identity.transformPoint kinC8.local2 -
                Iso3.identity.transformPoint kinC8.local1).normalize) ∨
           kinC8.normals2.polarContainsDir (Iso3.identity.inverseTransformUnitVector
              (-(Iso3.identity.transformPoint kinC8.local2 -
                Iso3.identity.transformPoint kinC8.local1).normalize))))) ∧
    ((Iso3.identity.transformPoint kinC8.local2 -
        Iso3.identity.transformPoint kinC8.local1).norm ≤ 0 →
      ∃ c, contact 0 kinC8 Iso3.identity Iso3.identity ⟨1, 0, 0⟩ = some (some c) ∧
        c.normal = Iso3.identity.transformUnitVector ⟨1, 0, 0⟩ ∧
        c.depth = kinC8.margin1 + kinC8.margin2)) :=
  ⟨⟨rfl, le_refl 0⟩,
   contact_pointPoint_characterization 0 kinC8 Iso3.identity Iso3.identity ⟨1, 0, 0⟩
     rfl (le_refl 0)⟩

/-- A 90-degree rotation about the z axis (a rigid transform). -/
noncomputable def rotZ90 : Iso3 :=
  ⟨⟨⟨0, -1, 0⟩, ⟨1, 0, 0⟩, ⟨0, 0, 1⟩⟩, ⟨0, 0, 0⟩⟩

/-- The Line×Point state of claim C5's failing input: the tracked side-1 line
has local direction `(1,0,0)` (so world direction `(0,1,0)` under `rotZ90`),
the side-2 point is at `(1,1,0)`, margins zero. -/
noncomputable def kinC5 : ContactKinematic :=
  { local1 := ⟨0, 0, 0⟩
    local2 := ⟨1, 1, 0⟩
    normals1 := PolyhedralCone.new
    normals2 := PolyhedralCone.new
    margin1 := 0
    margin2 := 0
    feature1 := FeatureId.Edge 0
    feature2 := FeatureId.Vertex 0
    variant := KinematicVariant.LinePoint ⟨1, 0, 0⟩ }

theorem normSq_y1 : V3.normSq ⟨0, 1, 0⟩ = 1 * 1 := by
  unfold V3.normSq V3.dot
  norm_num

theorem norm_y1 : V3.norm ⟨0, 1, 0⟩ = 1 := by
  unfold V3.norm
  rw [normSq_y1, Real.sqrt_mul_self (by norm_num : (0:ℝ) ≤ 1)]

theorem normalize_y1 : V3.normalize ⟨0, 1, 0⟩ = ⟨0, 1, 0⟩ := by
  unfold V3.normalize
  rw [norm_y1]
  ext <;> norm_num

/-- C5 (code bug): in the Line×Point branch the perpendicular offset is
computed with the *untransformed* stored direction (`dir1`) instead of the
world direction `m1 * dir1`, so for a rotated side 1 the computed line-side
world point is *not* the orthogonal projection of the point-side anchor onto
the transformed line: at the failing input the vector between the two world
contact points has dot product `1 ≠ 0` with the transformed line direction. -/
theorem contact_linePoint_projection_bug :
    contact 0 kinC5 rotZ90 Iso3.identity ⟨1, 0, 0⟩ =
      some (some ⟨⟨1, 0, 0⟩, ⟨1, 1, 0⟩, ⟨0, 1, 0⟩, -1⟩) ∧
    rotZ90.transformUnitVector ⟨1, 0, 0⟩ = ⟨0, 1, 0⟩ ∧
    V3.dot ((⟨1, 1, 0⟩ : V3) - ⟨1, 0, 0⟩) (rotZ90.transformUnitVector ⟨1, 0, 0⟩) = 1 ∧
    (1 : ℝ) ≠ 0 := by
  refine ⟨?_, ?_, ?_, by norm_num⟩
  · simp only [contact, kinC5]
    norm_num [tryNewAndGet, norm_y1, normalize_y1, V3.ext_iff, rotZ90,
      Iso3.identity, Mat3.identity, V3.zero_def,
      Iso3.transformPoint, Iso3.transformUnitVector, Iso3.inverseTransformUnitVector,
      Mat3.apply, Mat3.applyTranspose, V3.dot]
    constructor <;>
      norm_num [PolyhedralCone.polarContainsDir, PolyhedralCone.new,
        PolyhedralCone.inSpannedCone, V3.ext_iff]
  · norm_num [rotZ90, Iso3.transformUnitVector, Mat3.apply, V3.dot, V3.ext_iff]
  · norm_num [rotZ90, Iso3.transformUnitVector, Mat3.apply, V3.dot]

/-- C8 (amended): for the Point×Point state with side-1 anchor `(0,0,0)`,
side-2 anchor `(1.5,0,0)`, zero margins, identity transforms and the anchors
tracked as point features, `contact()` returns the normal `(1,0,0)` and depth
`-1.5` (the full center separation: the ball radii enter only through the
margins, which are zero here), the contact points being the two anchors. -/
theorem contact_ball_centers_eval :
    contact 0 kinC8 Iso3.identity Iso3.identity ⟨1, 0, 0⟩ =
      some (some ⟨⟨0, 0, 0⟩, ⟨3 / 2, 0, 0⟩, ⟨1, 0, 0⟩, -(3 / 2)⟩) :=
  contact_kinC8_eval

/-- C8 counterexample: at the claimed input the reported depth is `-1.5`, not
the `-0.5` asserted by the claim. -/
theorem contact_ball_centers_depth_cex :
    (contact 0 kinC8 Iso3.identity Iso3.identity ⟨1, 0, 0⟩).map
        (Option.map Contact.depth) = some (some (-(3 / 2))) ∧
    (-(3 / 2) : ℝ) ≠ -(1 / 2) := by
  constructor
  · rw [contact_kinC8_eval]
    rfl
  · norm_num

/-- C3 witness: the theorem applied to the freshly created kinematic state and
identity transforms. -/
theorem contact_none_iff_invalid_witness :
    PlaneSidesHaveNormal ContactKinematic.new ∧
    ((contact 0 ContactKinematic.new Iso3.identity Iso3.identity ⟨1, 0, 0⟩ = some none ↔
        ContactKinematic.new.variant.isInvalid) ∧
      (¬ ContactKinematic.new.variant.isInvalid →
        ∃ c, contact 0 ContactKinematic.new Iso3.identity Iso3.identity ⟨1, 0, 0⟩ =
          some (some c))) :=
  ⟨planeSidesHaveNormal_new,
   contact_none_iff_invalid 0 ContactKinematic.new Iso3.identity Iso3.identity ⟨1, 0, 0⟩
     planeSidesHaveNormal_new⟩

end ContactKinematic

/-! ### Capsule×capsule manifold generator (claim C9) -/

/-- `shape::Segment` (only used as the capsule's core shape here). -/
structure Segment3 where
  a : V3
  b : V3

/-- `shape::Capsule`: a segment of half-height `half_height` along the local
`y` axis, dilated by `radius`. -/
structure Capsule where
  half_height : ℝ
  radius : ℝ

/-- Modelled from the spec: `Capsule::segment()` is not under `src/`; the spec
says the capsule×capsule generator "reduces each capsule to its core segment",
the segment of length twice the half-height along the local `y` axis. -/
noncomputable def Capsule.segment (c : Capsule) : Segment3 :=
  ⟨⟨0, -c.half_height, 0⟩, ⟨0, c.half_height, 0⟩⟩

/-- `query::ContactPrediction`: linear and angular contact prediction margins
(`set_linear` mutates only the linear one). -/
structure ContactPrediction where
  linear : ℝ
  angular1 : ℝ
  angular2 : ℝ

/-- The shapes relevant to the capsule×capsule generator's dispatch guard
(`a.as_shape::<Capsule<N>>()`): a capsule, or some other shape. -/
inductive Shape where
  | capsule (c : Capsule)
  | other

/-- `Shape::as_shape::<Capsule>()`. -/
def Shape.asCapsule : Shape → Option Capsule
  | .capsule c => some c
  | .other => none

/-- The interface of the generic convex generator
(`ConvexPolyhedronConvexPolyhedronManifoldGenerator::generate_contacts`, not
under `src/`): an arbitrary function of the dispatcher, the two transformed
segments with their optional contact preprocessors, the prediction, the id
allocator and the manifold, returning the success flag together with the
updated allocator and manifold.  `D P I M` abstract the dispatcher,
preprocessor, `IdAllocator` and `ContactManifold` types. -/
def SubGenerator (D P I M : Type) : Type :=
  D → Iso3 → Segment3 → Option P → Iso3 → Segment3 → Option P →
    ContactPrediction → I → M → Bool × I × M

/-- `CapsuleCapsuleManifoldGenerator::do_update`: reduce both capsules to
their core segments, inflate the linear prediction by both radii, and delegate
to the generic convex generator with each capsule's own contact preprocessor
(`capsPre`, modelling `Capsule::contact_preprocessor()`). -/
noncomputable def capsuleCapsuleDoUpdate {D P I M : Type}
    (subgen : SubGenerator D P I M) (capsPre : Capsule → P) (d : D)
    (m1 : Iso3) (g1 : Capsule) (_proc1 : Option P) (m2 : Iso3) (g2 : Capsule)
    (_proc2 : Option P) (prediction : ContactPrediction) (idAlloc : I)
    (manifold : M) : Bool × I × M :=
  let segment1 := g1.segment
  let segment2 := g2.segment
  let newLinearPrediction := prediction.linear + g1.radius + g2.radius
  let prediction2 := { prediction with linear := newLinearPrediction }
  subgen d m1 segment1 (some (capsPre g1)) m2 segment2 (some (capsPre g2))
    prediction2 idAlloc manifold

/-- `CapsuleCapsuleManifoldGenerator::generate_contacts`: guard on both
operands being capsules, else report `false` without touching anything. -/
noncomputable def capsuleCapsuleGenerateContacts {D P I M : Type}
    (subgen : SubGenerator D P I M) (capsPre : Capsule → P) (d : D)
    (ma : Iso3) (a : Shape) (proc1 : Option P) (mb : Iso3) (b : Shape)
    (proc2 : Option P) (prediction : ContactPrediction) (idAlloc : I)
    (manifold : M) : Bool × I × M :=
  match a.asCapsule, b.asCapsule with
  | some cs1, some cs2 =>
    capsuleCapsuleDoUpdate subgen capsPre d ma cs1 proc1 mb cs2 proc2
      prediction idAlloc manifold
  | _, _ => (false, idAlloc, manifold)

/-- C9 (amended): on two capsules the generator returns exactly the result of
the generic convex generator applied to the two core segments, with the linear
contact prediction increased by the sum of both radii and each side's contact
preprocessor replaced by the corresponding capsule's own preprocessor —
dispatcher, transforms, angular predictions, id allocator and manifold passed
through unchanged; on any non-capsule operand it returns `false` and leaves
the id allocator and manifold untouched. -/
theorem capsule_capsule_delegates {D P I M : Type}
    (subgen : SubGenerator D P I M) (capsPre : Capsule → P) (d : D)
    (ma mb : Iso3) (c1 c2 : Capsule) (proc1 proc2 : Option P)
    (prediction : ContactPrediction) (idAlloc : I) (manifold : M) :
    (capsuleCapsuleGenerateContacts subgen capsPre d ma (.capsule c1) proc1 mb
        (.capsule c2) proc2 prediction idAlloc manifold =
      subgen d ma c1.segment (some (capsPre c1)) mb c2.segment (some (capsPre c2))
        { prediction with linear := prediction.linear + c1.radius + c2.radius }
        idAlloc manifold) ∧
    (∀ a b : Shape, a.asCapsule = none ∨ b.asCapsule = none →
      capsuleCapsuleGenerateContacts subgen capsPre d ma a proc1 mb b proc2
        prediction idAlloc manifold = (false, idAlloc, manifold)) := by
  constructor
  · rfl
  · rintro a b (h | h) <;> cases a <;> cases b <;>
      simp [Shape.asCapsule] at h ⊢ <;>
      rfl

/-- A generic-generator instance that reports whether the side-1 preprocessor
argument it receives is `none`; used to exhibit that the capsule generator
does *not* pass the caller's preprocessors through. -/
def subgenProbe : SubGenerator Unit Unit Unit Unit :=
  fun _ _ _ p1 _ _ _ _ i m => (p1.isNone, i, m)

/-- C9 counterexample: with the probing generic generator and `none` caller
preprocessors, the capsule generator returns `false` (it replaced the
preprocessors with the capsules' own), while the claimed pass-through call of
the generic generator on the segments with the inflated margin and the
*unchanged* preprocessor inputs returns `true` — so the claim's "all other
inputs passed through unchanged" fails for the contact preprocessors. -/
theorem capsule_capsule_preprocessor_cex :
    (capsuleCapsuleGenerateContacts subgenProbe (fun _ => ()) ()
        Iso3.identity (.capsule ⟨1, 1⟩) none Iso3.identity (.capsule ⟨1, 1⟩) none
        ⟨0, 0, 0⟩ () ()).1 = false ∧
    (subgenProbe () Iso3.identity (Capsule.segment ⟨1, 1⟩) none Iso3.identity
        (Capsule.segment ⟨1, 1⟩) none ⟨0 + 1 + 1, 0, 0⟩ () ()).1 = true ∧
    false ≠ true := by
  exact ⟨rfl, rfl, by simp⟩

/-- C9 witness: the delegation theorem applied at concrete capsules, with the
non-capsule implication discharged at a concrete non-capsule operand. -/
theorem capsule_capsule_delegates_witness :
    (capsuleCapsuleGenerateContacts subgenProbe (fun _ => ()) () Iso3.identity
        (.capsule ⟨1, 1⟩) none Iso3.identity (.capsule ⟨2, 3⟩) none ⟨5, 0, 0⟩ () () =
      subgenProbe () Iso3.identity (Capsule.segment ⟨1, 1⟩) (some ()) Iso3.identity
        (Capsule.segment ⟨2, 3⟩) (some ()) ⟨5 + 1 + 3, 0, 0⟩ () ()) ∧
    (Shape.other.asCapsule = none ∨ (Shape.capsule ⟨1, 1⟩).asCapsule = none) ∧
    capsuleCapsuleGenerateContacts subgenProbe (fun _ => ()) () Iso3.identity
        Shape.other none Iso3.identity (.capsule ⟨1, 1⟩) none ⟨5, 0, 0⟩ () () =
      (false, (), ()) := by
  have h := capsule_capsule_delegates subgenProbe (fun _ => ()) () Iso3.identity
    Iso3.identity ⟨1, 1⟩ ⟨2, 3⟩ none none ⟨5, 0, 0⟩ () ()
  exact ⟨h.1, Or.inl rfl, h.2 Shape.other (Shape.capsule ⟨1, 1⟩) (Or.inl rfl)⟩

/-! ### Unordered pairs (claim C10) -/

/-- `util::pair::Pair<B>`: a pair of objects together with their uids sorted
so that `ifirst ≤ isecond`. -/
structure Pair (B : Type) where
  first : B
  second : B
  ifirst : ℕ
  isecond : ℕ

/-- `Pair::new(a, b)`; `uid` models the `HasUid` trait method. -/
def Pair.new {B : Type} (uid : B → ℕ) (a b : B) : Pair B :=
  let ia := uid a
  let ib := uid b
  if uid a < uid b then
    { first := a, second := b, ifirst := ia, isecond := ib }
  else
    { first := a, second := b, ifirst := ib, isecond := ia }

/-- The `Eq for Pair<B>` implementation: equality of the sorted uid pairs. -/
def Pair.eqImpl {B : Type} (p other : Pair B) : Bool :=
  p.ifirst == other.ifirst && p.isecond == other.isecond

/-- `util::pair::PairTWHash`. -/
structure PairTWHash where
  unused : ℕ

/-- Modelled from the spec: `hash::tomas_wang_hash` and `hash::key_from_pair`
(`util::hash`) are not under `src/`; they are passed in as arbitrary
functions, which suffices because `HashFun<Pair<B>> for PairTWHash` feeds them
nothing but the sorted uid pair `(ifirst, isecond)`. -/
def PairTWHash.hashImpl {B : Type} (tomasWangHash : ℕ → ℕ)
    (keyFromPair : ℕ → ℕ → ℕ) (_self : PairTWHash) (p : Pair B) : ℕ :=
  tomasWangHash (keyFromPair p.ifirst p.isecond)

/-- C10: `Pair.new(a, b)` and `Pair.new(b, a)` compare equal under the `Eq`
implementation and receive the same `PairTWHash` value for every choice of the
underlying hash functions, because both equality and hashing depend only on
the sorted uid pair: `ifirst` is always the smaller uid and `isecond` the
larger. -/
theorem pair_new_unordered {B : Type} (uid : B → ℕ) (a b : B)
    (tomasWangHash : ℕ → ℕ) (keyFromPair : ℕ → ℕ → ℕ) (h : PairTWHash) :
    Pair.eqImpl (Pair.new uid a b) (Pair.new uid b a) = true ∧
    PairTWHash.hashImpl tomasWangHash keyFromPair h (Pair.new uid a b) =
      PairTWHash.hashImpl tomasWangHash keyFromPair h (Pair.new uid b a) ∧
    (Pair.new uid a b).ifirst = min (uid a) (uid b) ∧
    (Pair.new uid a b).isecond = max (uid a) (uid b) := by
  have hkey : (Pair.new uid a b).ifirst = (Pair.new uid b a).ifirst ∧
      (Pair.new uid a b).isecond = (Pair.new uid b a).isecond ∧
      (Pair.new uid a b).ifirst = min (uid a) (uid b) ∧
      (Pair.new uid a b).isecond = max (uid a) (uid b) := by
    unfold Pair.new
    rcases lt_trichotomy (uid a) (uid b) with hab | hab | hab
    · rw [if_pos hab, if_neg (by omega)]
      refine ⟨rfl, rfl, ?_, ?_⟩ <;> simp <;> omega
    · rw [if_neg (by omega), if_neg (by omega)]
      refine ⟨by simp [hab], by simp [hab], ?_, ?_⟩ <;> simp <;> omega
    · rw [if_neg (by omega), if_pos hab]
      refine ⟨rfl, rfl, ?_, ?_⟩ <;> simp <;> omega
  obtain ⟨h1, h2, h3, h4⟩ := hkey
  refine ⟨?_, ?_, h3, h4⟩
  · unfold Pair.eqImpl
    rw [h1, h2]
    simp
  · unfold PairTWHash.hashImpl
    rw [h1, h2]

/-! ### VoronoiSimplex (claims C1 and C2)

`query::algorithms::voronoi_simplex3::VoronoiSimplex`.  `CSOPoint` is modelled
by its `point` field alone (the `orig1`/`orig2` support points play no role in
any claim); the arrays become functions out of `Fin`. -/

/-- `shape::SegmentPointLocation`. -/
inductive SegmentPointLocation where
  | OnVertex (i : Fin 2)
  | OnEdge (bcoords : ℝ × ℝ)

/-- `shape::TrianglePointLocation`. -/
inductive TrianglePointLocation where
  | OnVertex (i : Fin 3)
  | OnEdge (i : Fin 3) (bcoords : ℝ × ℝ)
  | OnFace (bcoords : ℝ × ℝ × ℝ)
  | OnSolid

/-- `shape::TetrahedronPointLocation`. -/
inductive TetrahedronPointLocation where
  | OnVertex (i : Fin 4)
  | OnEdge (i : Fin 6) (bcoords : ℝ × ℝ)
  | OnFace (i : Fin 4) (bcoords : ℝ × ℝ × ℝ)
  | OnSolid

/-- `VoronoiSimplex<N>`. -/
structure VoronoiSimplex where
  prev_vertices : Fin 4 → Fin 4
  prev_proj : Fin 3 → ℝ
  prev_dim : ℕ
  vertices : Fin 4 → V3
  proj : Fin 3 → ℝ
  dim : ℕ

namespace VoronoiSimplex

/-- `VoronoiSimplex::new()`. -/
def new : VoronoiSimplex :=
  { prev_vertices := fun i => i
    prev_proj := fun _ => 0
    prev_dim := 0
    vertices := fun _ => 0
    proj := fun _ => 0
    dim := 0 }

/-- Swap two entries of a `Fin`-indexed array. -/
def swapFn {n : ℕ} {α : Type} (f : Fin n → α) (i j : Fin n) : Fin n → α :=
  fun k => if k = i then f j else if k = j then f i else f k

/-- `VoronoiSimplex::swap(i1, i2)`: swaps the vertices together with the
previous-state bookkeeping arrays.  `vertices` and `prev_vertices` have four
entries, but `prev_proj` has only three, so the source's
`self.prev_proj.swap(i1, i2)` indexes out of bounds and panics whenever
either index is 3; the panic is modelled by `none`. -/
def swap (s : VoronoiSimplex) (i1 i2 : Fin 4) : Option VoronoiSimplex :=
  if h1 : (i1 : ℕ) < 3 then
    if h2 : (i2 : ℕ) < 3 then
      some { s with
        vertices := swapFn s.vertices i1 i2
        prev_vertices := swapFn s.prev_vertices i1 i2
        prev_proj := swapFn s.prev_proj ⟨i1, h1⟩ ⟨i2, h2⟩ }
    else none
  else none

/-- `Simplex::reset(pt)`. -/
def reset (s : VoronoiSimplex) (pt : V3) : VoronoiSimplex :=
  { s with
    dim := 0
    prev_dim := 0
    vertices := Function.update s.vertices 0 pt }

/-- The snapshot taken at the top of `add_point`: the previous-state fields
are overwritten with the current dimension, coordinates and the identity
ordering. -/
def snapshot (s : VoronoiSimplex) : VoronoiSimplex :=
  { s with
    prev_dim := s.dim
    prev_proj := s.proj
    prev_vertices := fun i => i }

/-- `Simplex::add_point(pt)`: mutation modelled by returning the new state
along with the `bool` result; `none` models the `unreachable!()` for
dimensions above 2.  `epsTol` stands for `gjk::eps_tol()`. -/
noncomputable def addPoint (epsTol : ℝ) (s : VoronoiSimplex) (pt : V3) :
    Option (Bool × VoronoiSimplex) :=
  let s1 := snapshot s
  if s.dim = 0 then
    if V3.normSq (s.vertices 0 - pt) < epsTol then some (false, s1)
    else some (true, { s1 with dim := 1, vertices := Function.update s1.vertices 1 pt })
  else if s.dim = 1 then
    let ab := s.vertices 1 - s.vertices 0
    let ac := pt - s.vertices 0
    if V3.normSq (V3.cross ab ac) < epsTol then some (false, s1)
    else some (true, { s1 with dim := 2, vertices := Function.update s1.vertices 2 pt })
  else if s.dim = 2 then
    let ab := s.vertices 1 - s.vertices 0
    let ac := s.vertices 2 - s.vertices 0
    let ap := pt - s.vertices 0
    let n := V3.normalize (V3.cross ab ac)
    if |V3.dot n ap| < epsTol then some (false, s1)
    else some (true, { s1 with dim := 3, vertices := Function.update s1.vertices 3 pt })
  else none

/-- C2 (amended): for dimensions 0, 1 and 2, `add_point` rejects the candidate
point exactly when it is affinely dependent on the current vertices within the
tolerance (coincident at dim 0, collinear at dim 1, coplanar at dim 2); on
rejection the simplex proper — vertices, projection coordinates and dimension
— is unchanged, but the previous-state snapshot fields are overwritten with
the current state (`prev_dim := dim`, `prev_proj := proj`,
`prev_vertices := [0,1,2,3]`) rather than left untouched; on acceptance the
dimension grows by exactly 1, the point is stored in the new slot and all
other slots and the coordinates are kept. -/
theorem addPoint_characterization (epsTol : ℝ) (s : VoronoiSimplex) (pt : V3)
    (hdim : s.dim ≤ 2) :
    ∃ flag s2, addPoint epsTol s pt = some (flag, s2) ∧
      (flag = false ↔
        ((s.dim = 0 ∧ V3.normSq (s.vertices 0 - pt) < epsTol) ∨
         (s.dim = 1 ∧
           V3.normSq (V3.cross (s.vertices 1 - s.vertices 0) (pt - s.vertices 0)) <
             epsTol) ∨
         (s.dim = 2 ∧
           |V3.dot (V3.normalize (V3.cross (s.vertices 1 - s.vertices 0)
               (s.vertices 2 - s.vertices 0))) (pt - s.vertices 0)| < epsTol))) ∧
      (flag = false → s2.vertices = s.vertices ∧ s2.proj = s.proj ∧ s2.dim = s.dim) ∧
      s2.prev_dim = s.dim ∧ s2.prev_proj = s.proj ∧ s2.prev_vertices = (fun i => i) ∧
      (flag = true → s2.dim = s.dim + 1 ∧
        s2.vertices ⟨s.dim + 1, by omega⟩ = pt ∧
        (∀ i : Fin 4, (i : ℕ) ≠ s.dim + 1 → s2.vertices i = s.vertices i) ∧
        s2.proj = s.proj) := by
  obtain ⟨pv, pp, pd, v, pr, d⟩ := s
  simp only at hdim ⊢
  interval_cases d
  · have he : addPoint epsTol ⟨pv, pp, pd, v, pr, 0⟩ pt =
        (if V3.normSq (v 0 - pt) < epsTol
         then some (false, snapshot ⟨pv, pp, pd, v, pr, 0⟩)
         else some (true, { (snapshot ⟨pv, pp, pd, v, pr, 0⟩) with dim := 1, vertices := Function.update v 1 pt })) := rfl
    rw [he]
    split_ifs with hc
    · refine ⟨false, _, rfl, ⟨fun _ => Or.inl ⟨rfl, hc⟩, fun _ => rfl⟩,
        fun _ => ⟨rfl, rfl, rfl⟩, rfl, rfl, rfl, fun h => absurd h (by simp)⟩
    · refine ⟨true, _, rfl, ?_, fun h => absurd h (by simp), rfl, rfl, rfl, ?_⟩
      · constructor
        · intro h
          exact absurd h (by simp)
        · rintro (⟨_, h⟩ | ⟨h, _⟩ | ⟨h, _⟩)
          · exact absurd h hc
          · exact absurd h (by norm_num)
          · exact absurd h (by norm_num)
      · intro _
        refine ⟨rfl, ?_, ?_, rfl⟩
        · show Function.update v 1 pt ⟨0 + 1, by omega⟩ = pt
          have : (⟨0 + 1, by omega⟩ : Fin 4) = 1 := rfl
          rw [this, Function.update_same]
        · intro i hi
          show Function.update v 1 pt i = v i
          have : i ≠ 1 := by
            intro h
            subst h
            simp at hi
          rw [Function.update_noteq this]
  · have he : addPoint epsTol ⟨pv, pp, pd, v, pr, 1⟩ pt =
        (if V3.normSq (V3.cross (v 1 - v 0) (pt - v 0)) < epsTol
         then some (false, snapshot ⟨pv, pp, pd, v, pr, 1⟩)
         else some (true, { (snapshot ⟨pv, pp, pd, v, pr, 1⟩) with dim := 2, vertices := Function.update v 2 pt })) := rfl
    rw [he]
    split_ifs with hc
    · refine ⟨false, _, rfl, ⟨fun _ => Or.inr (Or.inl ⟨rfl, hc⟩), fun _ => rfl⟩,
        fun _ => ⟨rfl, rfl, rfl⟩, rfl, rfl, rfl, fun h => absurd h (by simp)⟩
    · refine ⟨true, _, rfl, ?_, fun h => absurd h (by simp), rfl, rfl, rfl, ?_⟩
      · constructor
        · intro h
          exact absurd h (by simp)
        · rintro (⟨h, _⟩ | ⟨_, h⟩ | ⟨h, _⟩)
          · exact absurd h (by norm_num)
          · exact absurd h hc
          · exact absurd h (by norm_num)
      · intro _
        refine ⟨rfl, ?_, ?_, rfl⟩
        · show Function.update v 2 pt ⟨1 + 1, by omega⟩ = pt
          have : (⟨1 + 1, by omega⟩ : Fin 4) = 2 := rfl
          rw [this, Function.update_same]
        · intro i hi
          show Function.update v 2 pt i = v i
          have : i ≠ 2 := by
            intro h
            subst h
            simp at hi
          rw [Function.update_noteq this]
  · have he : addPoint epsTol ⟨pv, pp, pd, v, pr, 2⟩ pt =
        (if |V3.dot (V3.normalize (V3.cross (v 1 - v 0) (v 2 - v 0))) (pt - v 0)| < epsTol
         then some (false, snapshot ⟨pv, pp, pd, v, pr, 2⟩)
         else some (true, { (snapshot ⟨pv, pp, pd, v, pr, 2⟩) with dim := 3, vertices := Function.update v 3 pt })) := rfl
    rw [he]
    split_ifs with hc
    · refine ⟨false, _, rfl, ⟨fun _ => Or.inr (Or.inr ⟨rfl, hc⟩), fun _ => rfl⟩,
        fun _ => ⟨rfl, rfl, rfl⟩, rfl, rfl, rfl, fun h => absurd h (by simp)⟩
    · refine ⟨true, _, rfl, ?_, fun h => absurd h (by simp), rfl, rfl, rfl, ?_⟩
      · constructor
        · intro h
          exact absurd h (by simp)
        · rintro (⟨h, _⟩ | ⟨h, _⟩ | ⟨_, h⟩)
          · exact absurd h (by norm_num)
          · exact absurd h (by norm_num)
          · exact absurd h hc
      · intro _
        refine ⟨rfl, ?_, ?_, rfl⟩
        · show Function.update v 3 pt ⟨2 + 1, by omega⟩ = pt
          have : (⟨2 + 1, by omega⟩ : Fin 4) = 3 := rfl
          rw [this, Function.update_same]
        · intro i hi
          show Function.update v 3 pt i = v i
          have : i ≠ 3 := by
            intro h
            subst h
            exact hi rfl
          rw [Function.update_noteq this]

/-- A 0-dimensional simplex whose previous dimension differs from the current
one (as happens after a reduction from dimension 1). -/
noncomputable def simplexC2 : VoronoiSimplex :=
  { prev_vertices := fun i => i
    prev_proj := fun _ => 0
    prev_dim := 1
    vertices := fun _ => 0
    proj := fun _ => 0
    dim := 0 }

/-- C2 counterexample: rejecting a coincident point at dimension 0 still
mutates the state — `prev_dim` is overwritten from 1 to 0 — refuting the
claim that a rejected `add_point` performs "no mutation of any field". -/
theorem addPoint_reject_mutates_cex :
    (addPoint 1 simplexC2 0).map (fun r => (r.1, r.2.prev_dim)) =
      some (false, 0) ∧ simplexC2.prev_dim = 1 := by
  constructor
  · have hc : V3.normSq (simplexC2.vertices 0 - 0) < 1 := by
      norm_num [simplexC2, V3.normSq, V3.dot, V3.zero_def]
    simp [addPoint, simplexC2, snapshot] at hc ⊢
    norm_num [V3.normSq, V3.dot, V3.zero_def]
  · rfl

/-- C2 witness: the characterization applied to `simplexC2` and a coincident
candidate point. -/
theorem addPoint_characterization_witness :
    simplexC2.dim ≤ 2 ∧
    (∃ flag s2, addPoint 1 simplexC2 0 = some (flag, s2) ∧
      (flag = false ↔
        ((simplexC2.dim = 0 ∧
           V3.normSq (simplexC2.vertices 0 - 0) < 1) ∨
         (simplexC2.dim = 1 ∧
           V3.normSq (V3.cross (simplexC2.vertices 1 - simplexC2.vertices 0)
             (0 - simplexC2.vertices 0)) < 1) ∨
         (simplexC2.dim = 2 ∧
           |V3.dot (V3.normalize (V3.cross
               (simplexC2.vertices 1 - simplexC2.vertices 0)
               (simplexC2.vertices 2 - simplexC2.vertices 0)))
             (0 - simplexC2.vertices 0)| < 1))) ∧
      (flag = false →
        s2.vertices = simplexC2.vertices ∧ s2.proj = simplexC2.proj ∧
          s2.dim = simplexC2.dim) ∧
      s2.prev_dim = simplexC2.dim ∧ s2.prev_proj = simplexC2.proj ∧
      s2.prev_vertices = (fun i => i) ∧
      (flag = true → s2.dim = simplexC2.dim + 1 ∧
        s2.vertices ⟨simplexC2.dim + 1, by norm_num [simplexC2]⟩ = 0 ∧
        (∀ i : Fin 4, (i : ℕ) ≠ simplexC2.dim + 1 →
          s2.vertices i = simplexC2.vertices i) ∧
        s2.proj = simplexC2.proj)) :=
  ⟨by norm_num [simplexC2], addPoint_characterization 1 simplexC2 0 (by norm_num [simplexC2])⟩

end VoronoiSimplex

/-! ### Exact origin projection onto simplices (spec-modelled, claims C1/C2)

`project_point_with_location` for `Segment`, `Triangle` and `Tetrahedron` is
not under `src/`; per the spec it performs "exact point-vs-segment / triangle
/ tetrahedron region classification (barycentric projection)".  The
definitions below model that classification for the query point used by
`VoronoiSimplex` (the origin, at the identity transform), with the coordinate
conventions the reduction tables of `project_origin_and_reduce` rely on. -/

namespace V3

theorem dot_comm (u v : V3) : dot u v = dot v u := by
  unfold dot
  ring

theorem dot_add_right (u v w : V3) : dot u (v + w) = dot u v + dot u w := by
  unfold dot
  simp
  ring

theorem dot_sub_right (u v w : V3) : dot u (v - w) = dot u v - dot u w := by
  unfold dot
  simp
  ring

theorem dot_smul_right (u : V3) (r : ℝ) (v : V3) : dot u (r • v) = r * dot u v := by
  unfold dot
  simp
  ring

theorem normSq_expand (u w : V3) :
    normSq (u + w) = normSq u + 2 * dot u w + normSq w := by
  unfold normSq dot
  simp
  ring

end V3

/-- `p` is the point of the segment `[a, b]` (the convex hull of its two
vertices) closest to the origin. -/
def IsClosestPt2 (a b p : V3) : Prop :=
  (∃ w1 w2 : ℝ, 0 ≤ w1 ∧ 0 ≤ w2 ∧ w1 + w2 = 1 ∧ p = w1 • a + w2 • b) ∧
  (∀ w1 w2 : ℝ, 0 ≤ w1 → 0 ≤ w2 → w1 + w2 = 1 →
    V3.normSq p ≤ V3.normSq (w1 • a + w2 • b))

/-- `p` is the point of the triangle `[a, b, c]` closest to the origin. -/
def IsClosestPt3 (a b c p : V3) : Prop :=
  (∃ w1 w2 w3 : ℝ, 0 ≤ w1 ∧ 0 ≤ w2 ∧ 0 ≤ w3 ∧ w1 + w2 + w3 = 1 ∧
    p = w1 • a + w2 • b + w3 • c) ∧
  (∀ w1 w2 w3 : ℝ, 0 ≤ w1 → 0 ≤ w2 → 0 ≤ w3 → w1 + w2 + w3 = 1 →
    V3.normSq p ≤ V3.normSq (w1 • a + w2 • b + w3 • c))

/-- `p` is the point of the tetrahedron `[a, b, c, d]` closest to the origin. -/
def IsClosestPt4 (a b c d p : V3) : Prop :=
  (∃ w1 w2 w3 w4 : ℝ, 0 ≤ w1 ∧ 0 ≤ w2 ∧ 0 ≤ w3 ∧ 0 ≤ w4 ∧
    w1 + w2 + w3 + w4 = 1 ∧ p = w1 • a + w2 • b + w3 • c + w4 • d) ∧
  (∀ w1 w2 w3 w4 : ℝ, 0 ≤ w1 → 0 ≤ w2 → 0 ≤ w3 → 0 ≤ w4 →
    w1 + w2 + w3 + w4 = 1 →
    V3.normSq p ≤ V3.normSq (w1 • a + w2 • b + w3 • c + w4 • d))

/-- Decomposition of a convex combination relative to a base point. -/
theorem comb2_sub (a b p : V3) (w1 w2 : ℝ) (hsum : w1 + w2 = 1) :
    w1 • a + w2 • b - p = w1 • (a - p) + w2 • (b - p) := by
  ext
  · simp only [V3.smul_def, V3.add_def, V3.sub_def]
    linear_combination p.x * hsum
  · simp only [V3.smul_def, V3.add_def, V3.sub_def]
    linear_combination p.y * hsum
  · simp only [V3.smul_def, V3.add_def, V3.sub_def]
    linear_combination p.z * hsum

theorem comb3_sub (a b c p : V3) (w1 w2 w3 : ℝ) (hsum : w1 + w2 + w3 = 1) :
    w1 • a + w2 • b + w3 • c - p = w1 • (a - p) + w2 • (b - p) + w3 • (c - p) := by
  ext
  · simp only [V3.smul_def, V3.add_def, V3.sub_def]
    linear_combination p.x * hsum
  · simp only [V3.smul_def, V3.add_def, V3.sub_def]
    linear_combination p.y * hsum
  · simp only [V3.smul_def, V3.add_def, V3.sub_def]
    linear_combination p.z * hsum

theorem comb4_sub (a b c d p : V3) (w1 w2 w3 w4 : ℝ) (hsum : w1 + w2 + w3 + w4 = 1) :
    w1 • a + w2 • b + w3 • c + w4 • d - p =
      w1 • (a - p) + w2 • (b - p) + w3 • (c - p) + w4 • (d - p) := by
  ext
  · simp only [V3.smul_def, V3.add_def, V3.sub_def]
    linear_combination p.x * hsum
  · simp only [V3.smul_def, V3.add_def, V3.sub_def]
    linear_combination p.y * hsum
  · simp only [V3.smul_def, V3.add_def, V3.sub_def]
    linear_combination p.z * hsum

theorem normSq_ge_of_dot_nonneg (p x : V3) (h : 0 ≤ V3.dot p (x - p)) :
    V3.normSq p ≤ V3.normSq x := by
  have hx : x = p + (x - p) := by
    ext <;> simp
  rw [hx, V3.normSq_expand]
  nlinarith [V3.normSq_nonneg (x - p)]

/-- Convex-projection criterion for a segment: membership plus the
obtuse-angle condition at both vertices. -/
theorem isClosestPt2_of_dots (a b p : V3)
    (hmem : ∃ w1 w2 : ℝ, 0 ≤ w1 ∧ 0 ≤ w2 ∧ w1 + w2 = 1 ∧ p = w1 • a + w2 • b)
    (ha : 0 ≤ V3.dot p (a - p)) (hb : 0 ≤ V3.dot p (b - p)) :
    IsClosestPt2 a b p := by
  refine ⟨hmem, ?_⟩
  intro w1 w2 h1 h2 hsum
  refine normSq_ge_of_dot_nonneg p _ ?_
  rw [comb2_sub a b p w1 w2 hsum, V3.dot_add_right, V3.dot_smul_right, V3.dot_smul_right]
  have := mul_nonneg h1 ha
  have := mul_nonneg h2 hb
  linarith

/-- Convex-projection criterion for a triangle. -/
theorem isClosestPt3_of_dots (a b c p : V3)
    (hmem : ∃ w1 w2 w3 : ℝ, 0 ≤ w1 ∧ 0 ≤ w2 ∧ 0 ≤ w3 ∧ w1 + w2 + w3 = 1 ∧
      p = w1 • a + w2 • b + w3 • c)
    (ha : 0 ≤ V3.dot p (a - p)) (hb : 0 ≤ V3.dot p (b - p))
    (hc : 0 ≤ V3.dot p (c - p)) :
    IsClosestPt3 a b c p := by
  refine ⟨hmem, ?_⟩
  intro w1 w2 w3 h1 h2 h3 hsum
  refine normSq_ge_of_dot_nonneg p _ ?_
  rw [comb3_sub a b c p w1 w2 w3 hsum, V3.dot_add_right, V3.dot_add_right,
    V3.dot_smul_right, V3.dot_smul_right, V3.dot_smul_right]
  have := mul_nonneg h1 ha
  have := mul_nonneg h2 hb
  have := mul_nonneg h3 hc
  linarith

/-- Convex-projection criterion for a tetrahedron. -/
theorem isClosestPt4_of_dots (a b c d p : V3)
    (hmem : ∃ w1 w2 w3 w4 : ℝ, 0 ≤ w1 ∧ 0 ≤ w2 ∧ 0 ≤ w3 ∧ 0 ≤ w4 ∧
      w1 + w2 + w3 + w4 = 1 ∧ p = w1 • a + w2 • b + w3 • c + w4 • d)
    (ha : 0 ≤ V3.dot p (a - p)) (hb : 0 ≤ V3.dot p (b - p))
    (hc : 0 ≤ V3.dot p (c - p)) (hd : 0 ≤ V3.dot p (d - p)) :
    IsClosestPt4 a b c d p := by
  refine ⟨hmem, ?_⟩
  intro w1 w2 w3 w4 h1 h2 h3 h4 hsum
  refine normSq_ge_of_dot_nonneg p _ ?_
  rw [comb4_sub a b c d p w1 w2 w3 w4 hsum, V3.dot_add_right, V3.dot_add_right,
    V3.dot_add_right, V3.dot_smul_right, V3.dot_smul_right, V3.dot_smul_right,
    V3.dot_smul_right]
  have := mul_nonneg h1 ha
  have := mul_nonneg h2 hb
  have := mul_nonneg h3 hc
  have := mul_nonneg h4 hd
  linarith

/-- Modelled from the spec: exact projection of the origin onto the segment
`[a, b]` with region classification; `OnEdge` coordinates are the barycentric
pair `(coeff of a, coeff of b)`. -/
noncomputable def segmentProjectOrigin (a b : V3) : V3 × SegmentPointLocation :=
  let ab := b - a
  let t := -(V3.dot a ab) / V3.normSq ab
  if t ≤ 0 then (a, .OnVertex 0)
  else if 1 ≤ t then (b, .OnVertex 1)
  else (a + t • ab, .OnEdge (1 - t, t))

/-- The per-location payload facts of the segment projector. -/
def SegLocFacts (a b p : V3) : SegmentPointLocation → Prop
  | .OnVertex i => p = if i = 0 then a else b
  | .OnEdge co => 0 ≤ co.1 ∧ 0 ≤ co.2 ∧ co.1 + co.2 = 1 ∧ p = co.1 • a + co.2 • b

theorem segmentProjectOrigin_correct (a b : V3) :
    IsClosestPt2 a b (segmentProjectOrigin a b).1 ∧
    SegLocFacts a b (segmentProjectOrigin a b).1 (segmentProjectOrigin a b).2 := by
  have hmema : ∃ w1 w2 : ℝ, 0 ≤ w1 ∧ 0 ≤ w2 ∧ w1 + w2 = 1 ∧ a = w1 • a + w2 • b :=
    ⟨1, 0, by norm_num, by norm_num, by norm_num, by ext <;> simp⟩
  have hmemb : ∃ w1 w2 : ℝ, 0 ≤ w1 ∧ 0 ≤ w2 ∧ w1 + w2 = 1 ∧ b = w1 • a + w2 • b :=
    ⟨0, 1, by norm_num, by norm_num, by norm_num, by ext <;> simp⟩
  have hself : ∀ u : V3, V3.dot u (u - u) = 0 := by
    intro u
    have : u - u = 0 := by ext <;> simp
    rw [this]
    simp [V3.dot, V3.zero_def]
  simp only [segmentProjectOrigin]
  by_cases hdeg : V3.normSq (b - a) = 0
  · have hba : b - a = 0 := (V3.normSq_eq_zero_iff _).mp hdeg
    have h1 := congrArg V3.x hba
    have h2 := congrArg V3.y hba
    have h3 := congrArg V3.z hba
    simp at h1 h2 h3
    have hb : b = a := by ext <;> linarith
    rw [hdeg]
    simp only [div_zero, le_refl, if_pos]
    refine ⟨isClosestPt2_of_dots a b a hmema (le_of_eq (hself a).symm) ?_, by simp [SegLocFacts]⟩
    rw [hb]
    exact le_of_eq (hself a).symm
  · have hpos : 0 < V3.normSq (b - a) :=
      lt_of_le_of_ne (V3.normSq_nonneg _) (Ne.symm hdeg)
    by_cases h0 : -(V3.dot a (b - a)) / V3.normSq (b - a) ≤ 0
    · rw [if_pos h0]
      have hnum : 0 ≤ V3.dot a (b - a) := by
        by_contra hcon
        push_neg at hcon
        have : 0 < -(V3.dot a (b - a)) / V3.normSq (b - a) :=
          div_pos (by linarith) hpos
        linarith
      exact ⟨isClosestPt2_of_dots a b a hmema (le_of_eq (hself a).symm) hnum, by simp [SegLocFacts]⟩
    · rw [if_neg h0]
      push_neg at h0
      by_cases h1 : 1 ≤ -(V3.dot a (b - a)) / V3.normSq (b - a)
      · rw [if_pos h1]
        have hnum : V3.normSq (b - a) ≤ -(V3.dot a (b - a)) := by
          have := (le_div_iff hpos).mp h1
          linarith
        refine ⟨isClosestPt2_of_dots a b b hmemb ?_ (le_of_eq (hself b).symm), by simp [SegLocFacts]⟩
        have hrw : V3.dot b (a - b) = -(V3.dot a (b - a)) - V3.normSq (b - a) := by
          unfold V3.normSq V3.dot
          simp only [V3.sub_def]
          ring
        rw [hrw]
        linarith
      · rw [if_neg h1]
        push_neg at h1
        set t := -(V3.dot a (b - a)) / V3.normSq (b - a) with hT
        have hts : t * V3.normSq (b - a) = -(V3.dot a (b - a)) := by
          rw [hT]
          exact div_mul_cancel₀ _ hdeg
        have hdot : V3.dot (a + t • (b - a)) (b - a) = 0 := by
          unfold V3.normSq at hts
          unfold V3.dot at hts ⊢
          simp only [V3.add_def, V3.smul_def, V3.sub_def] at hts ⊢
          linear_combination hts
        have hcomb : a + t • (b - a) = (1 - t) • a + t • b := by
          ext <;> simp <;> ring
        have hda : 0 ≤ V3.dot (a + t • (b - a)) (a - (a + t • (b - a))) := by
          have hrw : a - (a + t • (b - a)) = (-t) • (b - a) := by
            ext <;> simp <;> ring
          rw [hrw, V3.dot_smul_right, hdot]
          simp
        have hdb : 0 ≤ V3.dot (a + t • (b - a)) (b - (a + t • (b - a))) := by
          have hrw : b - (a + t • (b - a)) = (1 - t) • (b - a) := by
            ext <;> simp <;> ring
          rw [hrw, V3.dot_smul_right, hdot]
          simp
        refine ⟨isClosestPt2_of_dots a b (a + t • (b - a))
          ⟨1 - t, t, by linarith, by linarith, by ring, hcomb⟩ hda hdb, ?_, ?_, ?_, ?_⟩
        · show (0:ℝ) ≤ 1 - t
          linarith
        · show (0:ℝ) ≤ t
          linarith
        · show 1 - t + t = 1
          ring
        · exact hcomb

namespace V3

theorem dot_add_left (u v w : V3) : dot (u + v) w = dot u w + dot v w := by
  unfold dot
  simp
  ring

theorem dot_smul_left (r : ℝ) (u w : V3) : dot (r • u) w = r * dot u w := by
  unfold dot
  simp
  ring

end V3

/-- The crossing parameter used to walk from an infeasible barycentric tuple
to the boundary of a simplex: the first `τ ∈ [0,1]` at which the coordinate
`(1-τ) * q + τ * w` stops being negative. -/
noncomputable def crossStep (q w : ℝ) : ℝ :=
  if q < 0 then q / (q - w) else 0

theorem crossStep_spec (q w : ℝ) (hw : 0 ≤ w) :
    0 ≤ crossStep q w ∧ crossStep q w ≤ 1 ∧
      (q < 0 → (1 - crossStep q w) * q + crossStep q w * w = 0) ∧
      (∀ τ : ℝ, crossStep q w ≤ τ → τ ≤ 1 → 0 ≤ (1 - τ) * q + τ * w) := by
  unfold crossStep
  by_cases hq : q < 0
  · rw [if_pos hq]
    have hden : q - w < 0 := by linarith
    have hnn : 0 ≤ q / (q - w) := by
      rw [div_nonneg_iff]
      right
      constructor <;> linarith
    have hle1 : q / (q - w) ≤ 1 := by
      rw [div_le_iff_of_neg hden]
      linarith
    have hzero : (1 - q / (q - w)) * q + q / (q - w) * w = 0 := by
      have hne : q - w ≠ 0 := ne_of_lt hden
      field_simp [hne]
      ring
    refine ⟨hnn, hle1, fun _ => hzero, ?_⟩
    intro τ hτ1 hτ2
    have hslope : 0 ≤ (τ - q / (q - w)) * (w - q) := by
      apply mul_nonneg
      · linarith
      · linarith
    nlinarith [hzero]
  · rw [if_neg hq]
    push_neg at hq
    refine ⟨le_refl 0, by norm_num, fun h => absurd h (by linarith), ?_⟩
    intro τ hτ1 hτ2
    have h1 : 0 ≤ (1 - τ) * q := mul_nonneg (by linarith) hq
    have h2 : 0 ≤ τ * w := mul_nonneg hτ1 hw
    linarith

theorem crossStep_pos (q w : ℝ) (hq : q < 0) (hw : 0 ≤ w) : 0 < crossStep q w := by
  unfold crossStep
  rw [if_pos hq]
  rw [div_pos_iff]
  right
  constructor <;> linarith

/-- Walking from an infeasible barycentric triple towards a feasible one hits
the boundary: some intermediate convex combination is feasible with one
coordinate exactly zero. -/
theorem crossing3 (qa qb qc w1 w2 w3 : ℝ)
    (h1 : 0 ≤ w1) (h2 : 0 ≤ w2) (h3 : 0 ≤ w3)
    (hneg : qa < 0 ∨ qb < 0 ∨ qc < 0) :
    ∃ τ : ℝ, 0 ≤ τ ∧ τ ≤ 1 ∧
      0 ≤ (1 - τ) * qa + τ * w1 ∧ 0 ≤ (1 - τ) * qb + τ * w2 ∧
      0 ≤ (1 - τ) * qc + τ * w3 ∧
      ((1 - τ) * qa + τ * w1 = 0 ∨ (1 - τ) * qb + τ * w2 = 0 ∨
        (1 - τ) * qc + τ * w3 = 0) := by
  obtain ⟨ha0, ha1, haz, ham⟩ := crossStep_spec qa w1 h1
  obtain ⟨hb0, hb1, hbz, hbm⟩ := crossStep_spec qb w2 h2
  obtain ⟨hc0, hc1, hcz, hcm⟩ := crossStep_spec qc w3 h3
  set τ := max (crossStep qa w1) (max (crossStep qb w2) (crossStep qc w3)) with hτ
  have hτa : crossStep qa w1 ≤ τ := le_max_left _ _
  have hτb : crossStep qb w2 ≤ τ := le_trans (le_max_left _ _) (le_max_right _ _)
  have hτc : crossStep qc w3 ≤ τ := le_trans (le_max_right _ _) (le_max_right _ _)
  have hτ0 : 0 ≤ τ := le_trans ha0 hτa
  have hτ1 : τ ≤ 1 := by
    rw [hτ]
    exact max_le ha1 (max_le hb1 hc1)
  have hτpos : 0 < τ := by
    rcases hneg with h | h | h
    · exact lt_of_lt_of_le (crossStep_pos qa w1 h h1) hτa
    · exact lt_of_lt_of_le (crossStep_pos qb w2 h h2) hτb
    · exact lt_of_lt_of_le (crossStep_pos qc w3 h h3) hτc
  refine ⟨τ, hτ0, hτ1, ham τ hτa hτ1, hbm τ hτb hτ1, hcm τ hτc hτ1, ?_⟩
  rcases max_choice (crossStep qa w1) (max (crossStep qb w2) (crossStep qc w3)) with
    hm | hm
  · left
    have hqa : qa < 0 := by
      by_contra hcon
      push_neg at hcon
      have : crossStep qa w1 = 0 := by
        unfold crossStep
        rw [if_neg (by linarith)]
      rw [hτ, hm, this] at hτpos
      exact lt_irrefl 0 hτpos
    rw [hτ, hm]
    exact haz hqa
  · rcases max_choice (crossStep qb w2) (crossStep qc w3) with hm2 | hm2
    · right
      left
      have hqb : qb < 0 := by
        by_contra hcon
        push_neg at hcon
        have : crossStep qb w2 = 0 := by
          unfold crossStep
          rw [if_neg (by linarith)]
        rw [hτ, hm, hm2, this] at hτpos
        exact lt_irrefl 0 hτpos
      rw [hτ, hm, hm2]
      exact hbz hqb
    · right
      right
      have hqc : qc < 0 := by
        by_contra hcon
        push_neg at hcon
        have : crossStep qc w3 = 0 := by
          unfold crossStep
          rw [if_neg (by linarith)]
        rw [hτ, hm, hm2, this] at hτpos
        exact lt_irrefl 0 hτpos
      rw [hτ, hm, hm2]
      exact hcz hqc

/-- Four-coordinate version of `crossing3`, for the tetrahedron. -/
theorem crossing4 (qa qb qc qd w1 w2 w3 w4 : ℝ)
    (h1 : 0 ≤ w1) (h2 : 0 ≤ w2) (h3 : 0 ≤ w3) (h4 : 0 ≤ w4)
    (hneg : qa < 0 ∨ qb < 0 ∨ qc < 0 ∨ qd < 0) :
    ∃ τ : ℝ, 0 ≤ τ ∧ τ ≤ 1 ∧
      0 ≤ (1 - τ) * qa + τ * w1 ∧ 0 ≤ (1 - τ) * qb + τ * w2 ∧
      0 ≤ (1 - τ) * qc + τ * w3 ∧ 0 ≤ (1 - τ) * qd + τ * w4 ∧
      ((1 - τ) * qa + τ * w1 = 0 ∨ (1 - τ) * qb + τ * w2 = 0 ∨
        (1 - τ) * qc + τ * w3 = 0 ∨ (1 - τ) * qd + τ * w4 = 0) := by
  obtain ⟨ha0, ha1, haz, ham⟩ := crossStep_spec qa w1 h1
  obtain ⟨hb0, hb1, hbz, hbm⟩ := crossStep_spec qb w2 h2
  obtain ⟨hc0, hc1, hcz, hcm⟩ := crossStep_spec qc w3 h3
  obtain ⟨hd0, hd1, hdz, hdm⟩ := crossStep_spec qd w4 h4
  set τ := max (crossStep qa w1)
    (max (crossStep qb w2) (max (crossStep qc w3) (crossStep qd w4))) with hτ
  have hτa : crossStep qa w1 ≤ τ := le_max_left _ _
  have hτb : crossStep qb w2 ≤ τ := le_trans (le_max_left _ _) (le_max_right _ _)
  have hτc : crossStep qc w3 ≤ τ :=
    le_trans (le_trans (le_max_left _ _) (le_max_right _ _)) (le_max_right _ _)
  have hτd : crossStep qd w4 ≤ τ :=
    le_trans (le_trans (le_max_right _ _) (le_max_right _ _)) (le_max_right _ _)
  have hτ0 : 0 ≤ τ := le_trans ha0 hτa
  have hτ1 : τ ≤ 1 := by
    rw [hτ]
    exact max_le ha1 (max_le hb1 (max_le hc1 hd1))
  have hτpos : 0 < τ := by
    rcases hneg with h | h | h | h
    · exact lt_of_lt_of_le (crossStep_pos qa w1 h h1) hτa
    · exact lt_of_lt_of_le (crossStep_pos qb w2 h h2) hτb
    · exact lt_of_lt_of_le (crossStep_pos qc w3 h h3) hτc
    · exact lt_of_lt_of_le (crossStep_pos qd w4 h h4) hτd
  refine ⟨τ, hτ0, hτ1, ham τ hτa hτ1, hbm τ hτb hτ1, hcm τ hτc hτ1, hdm τ hτd hτ1, ?_⟩
  have hzero : ∀ q w : ℝ, ¬ q < 0 → crossStep q w = 0 := by
    intro q w hcon
    unfold crossStep
    rw [if_neg hcon]
  rcases max_choice (crossStep qa w1)
      (max (crossStep qb w2) (max (crossStep qc w3) (crossStep qd w4))) with hm | hm
  · left
    have hqa : qa < 0 := by
      by_contra hcon
      rw [hτ, hm, hzero qa w1 hcon] at hτpos
      exact lt_irrefl 0 hτpos
    rw [hτ, hm]
    exact haz hqa
  · rcases max_choice (crossStep qb w2) (max (crossStep qc w3) (crossStep qd w4)) with
      hm2 | hm2
    · right
      left
      have hqb : qb < 0 := by
        by_contra hcon
        rw [hτ, hm, hm2, hzero qb w2 hcon] at hτpos
        exact lt_irrefl 0 hτpos
      rw [hτ, hm, hm2]
      exact hbz hqb
    · rcases max_choice (crossStep qc w3) (crossStep qd w4) with hm3 | hm3
      · right
        right
        left
        have hqc : qc < 0 := by
          by_contra hcon
          rw [hτ, hm, hm2, hm3, hzero qc w3 hcon] at hτpos
          exact lt_irrefl 0 hτpos
        rw [hτ, hm, hm2, hm3]
        exact hcz hqc
      · right
        right
        right
        have hqd : qd < 0 := by
          by_contra hcon
          rw [hτ, hm, hm2, hm3, hzero qd w4 hcon] at hτpos
          exact lt_irrefl 0 hτpos
        rw [hτ, hm, hm2, hm3]
        exact hdz hqd

/-- Gram determinant of the triangle's edge vectors (non-zero exactly for
non-degenerate triangles; it equals `normSq ((b-a) × (c-a))`). -/
noncomputable def triS (a b c : V3) : ℝ :=
  V3.normSq (b - a) * V3.normSq (c - a) - V3.dot (b - a) (c - a) * V3.dot (b - a) (c - a)

/-- Unnormalized barycentric coordinate of `b` for the projection of the
origin onto the plane of the triangle. -/
noncomputable def triVb (a b c : V3) : ℝ :=
  V3.normSq (c - a) * (-(V3.dot a (b - a))) -
    V3.dot (b - a) (c - a) * (-(V3.dot a (c - a)))

/-- Unnormalized barycentric coordinate of `c` for the projection of the
origin onto the plane of the triangle. -/
noncomputable def triVc (a b c : V3) : ℝ :=
  V3.normSq (b - a) * (-(V3.dot a (c - a))) -
    V3.dot (b - a) (c - a) * (-(V3.dot a (b - a)))

/-- Unnormalized barycentric coordinate of `a`. -/
noncomputable def triVa (a b c : V3) : ℝ := triS a b c - triVb a b c - triVc a b c

/-- The projection of the origin onto the plane of the triangle, written in
barycentric form. -/
noncomputable def triQ (a b c : V3) : V3 :=
  (triVa a b c / triS a b c) • a + (triVb a b c / triS a b c) • b +
    (triVc a b c / triS a b c) • c

theorem triS_eq_normSq_cross (a b c : V3) :
    triS a b c = V3.normSq (V3.cross (b - a) (c - a)) := by
  unfold triS V3.normSq V3.dot V3.cross
  simp only [V3.sub_def]
  ring

theorem triS_pos (a b c : V3) (hnd : V3.cross (b - a) (c - a) ≠ 0) :
    0 < triS a b c := by
  rw [triS_eq_normSq_cross]
  exact lt_of_le_of_ne (V3.normSq_nonneg _)
    (Ne.symm (fun h => hnd ((V3.normSq_eq_zero_iff _).mp h)))

theorem triQ_in_plane (a b c : V3) (hS : triS a b c ≠ 0) :
    triQ a b c = a + (triVb a b c / triS a b c) • (b - a) +
      (triVc a b c / triS a b c) • (c - a) := by
  unfold triQ triVa
  ext <;> simp <;> field_simp <;> ring

theorem dot_shift_b (a b c : V3) :
    V3.dot b (b - a) = V3.dot a (b - a) + V3.normSq (b - a) := by
  unfold V3.normSq V3.dot
  simp only [V3.sub_def]
  ring

theorem dot_shift_c (a b c : V3) :
    V3.dot c (b - a) = V3.dot a (b - a) + V3.dot (b - a) (c - a) := by
  unfold V3.dot
  simp only [V3.sub_def]
  ring

theorem dot_shift_b_ac (a b c : V3) :
    V3.dot b (c - a) = V3.dot a (c - a) + V3.dot (b - a) (c - a) := by
  unfold V3.dot
  simp only [V3.sub_def]
  ring

theorem dot_shift_c_ac (a b c : V3) :
    V3.dot c (c - a) = V3.dot a (c - a) + V3.normSq (c - a) := by
  unfold V3.normSq V3.dot
  simp only [V3.sub_def]
  ring

/-- The plane projection satisfies the normal equation against `b - a`. -/
theorem triQ_dot_ab (a b c : V3) (hS : triS a b c ≠ 0) :
    V3.dot (triQ a b c) (b - a) = 0 := by
  unfold triQ
  rw [V3.dot_add_left, V3.dot_add_left, V3.dot_smul_left, V3.dot_smul_left,
    V3.dot_smul_left, dot_shift_b a b c, dot_shift_c a b c]
  unfold triS at hS
  unfold triVa triVb triVc triS
  field_simp [hS]
  all_goals try ring
  all_goals simp only [true_or]

/-- The plane projection satisfies the normal equation against `c - a`. -/
theorem triQ_dot_ac (a b c : V3) (hS : triS a b c ≠ 0) :
    V3.dot (triQ a b c) (c - a) = 0 := by
  unfold triQ
  rw [V3.dot_add_left, V3.dot_add_left, V3.dot_smul_left, V3.dot_smul_left,
    V3.dot_smul_left, dot_shift_b_ac a b c, dot_shift_c_ac a b c]
  unfold triS at hS
  unfold triVa triVb triVc triS
  field_simp [hS]
  all_goals try ring
  all_goals simp only [true_or]

/-- Keep the candidate closer to the origin (the first on ties). -/
noncomputable def pickCloser {L : Type} (r1 r2 : V3 × L) : V3 × L :=
  if V3.normSq r2.1 < V3.normSq r1.1 then r2 else r1

theorem pickCloser_eq_or {L : Type} (r1 r2 : V3 × L) :
    pickCloser r1 r2 = r1 ∨ pickCloser r1 r2 = r2 := by
  unfold pickCloser
  split_ifs
  · right
    rfl
  · left
    rfl

theorem pickCloser_le_left {L : Type} (r1 r2 : V3 × L) :
    V3.normSq (pickCloser r1 r2).1 ≤ V3.normSq r1.1 := by
  unfold pickCloser
  split_ifs with h
  · exact le_of_lt h
  · exact le_refl _

theorem pickCloser_le_right {L : Type} (r1 r2 : V3 × L) :
    V3.normSq (pickCloser r1 r2).1 ≤ V3.normSq r2.1 := by
  unfold pickCloser
  split_ifs with h
  · exact le_refl _
  · linarith

/-- Map a segment-projection location on edge `e` of a triangle to the
triangle-level location (edges `0 = ab`, `1 = bc`, `2 = ca`; the coordinates
of edge `2` are reported in the order `(coeff of a, coeff of c)`, as the
simplex reduction's swap table expects). -/
def mapSegLocToTri (e : Fin 3) (loc : SegmentPointLocation) : TrianglePointLocation :=
  match e, loc with
  | 0, .OnVertex i => .OnVertex (if i = 0 then 0 else 1)
  | 0, .OnEdge co => .OnEdge 0 co
  | 1, .OnVertex i => .OnVertex (if i = 0 then 1 else 2)
  | 1, .OnEdge co => .OnEdge 1 co
  | 2, .OnVertex i => .OnVertex (if i = 0 then 2 else 0)
  | 2, .OnEdge co => .OnEdge 2 (co.2, co.1)

/-- Modelled from the spec: exact projection of the origin onto the triangle
`[a, b, c]` with region classification.  If the projection of the origin onto
the plane of the triangle has non-negative barycentric coordinates it is the
closest point (`OnFace`); otherwise the closest point lies on the boundary
and is the closest of the three edge projections. -/
noncomputable def triangleProjectOrigin (a b c : V3) : V3 × TrianglePointLocation :=
  if 0 ≤ triVa a b c ∧ 0 ≤ triVb a b c ∧ 0 ≤ triVc a b c then
    (triQ a b c, .OnFace (triVa a b c / triS a b c, triVb a b c / triS a b c,
      triVc a b c / triS a b c))
  else
    let r0 := segmentProjectOrigin a b
    let r1 := segmentProjectOrigin b c
    let r2 := segmentProjectOrigin c a
    pickCloser (pickCloser (r0.1, mapSegLocToTri 0 r0.2) (r1.1, mapSegLocToTri 1 r1.2))
      (r2.1, mapSegLocToTri 2 r2.2)

/-- The per-location payload facts of the triangle projector. -/
def TriLocFacts (a b c p : V3) : TrianglePointLocation → Prop
  | .OnVertex i => p = if i = 0 then a else if i = 1 then b else c
  | .OnEdge i co =>
      0 ≤ co.1 ∧ 0 ≤ co.2 ∧ co.1 + co.2 = 1 ∧
      (if i = 0 then p = co.1 • a + co.2 • b
       else if i = 1 then p = co.1 • b + co.2 • c
       else p = co.1 • a + co.2 • c)
  | .OnFace co => 0 ≤ co.1 ∧ 0 ≤ co.2.1 ∧ 0 ≤ co.2.2 ∧ co.1 + co.2.1 + co.2.2 = 1 ∧
      p = co.1 • a + co.2.1 • b + co.2.2 • c
  | .OnSolid => False

theorem normSq_smul (r : ℝ) (v : V3) : V3.normSq (r • v) = r ^ 2 * V3.normSq v := by
  unfold V3.normSq V3.dot
  simp
  ring

theorem normSq_add_of_dot_zero (u w : V3) (h : V3.dot u w = 0) :
    V3.normSq (u + w) = V3.normSq u + V3.normSq w := by
  rw [V3.normSq_expand, h]
  ring

set_option maxHeartbeats 1000000 in
/-- Correctness of the triangle projector for non-degenerate triangles: the
returned point is the point of the triangle closest to the origin, and the
returned location carries the matching barycentric data. -/
theorem triangleProjectOrigin_correct (a b c : V3)
    (hnd : V3.cross (b - a) (c - a) ≠ 0) :
    IsClosestPt3 a b c (triangleProjectOrigin a b c).1 ∧
    TriLocFacts a b c (triangleProjectOrigin a b c).1 (triangleProjectOrigin a b c).2 := by
  have hSpos : 0 < triS a b c := triS_pos a b c hnd
  have hS : triS a b c ≠ 0 := ne_of_gt hSpos
  have hsumV : triVa a b c + triVb a b c + triVc a b c = triS a b c := by
    unfold triVa
    ring
  have hsum1 : triVa a b c / triS a b c + triVb a b c / triS a b c +
      triVc a b c / triS a b c = 1 := by
    rw [div_add_div_same, div_add_div_same, hsumV, div_self hS]
  have hqcomb : triQ a b c = (triVa a b c / triS a b c) • a +
      (triVb a b c / triS a b c) • b + (triVc a b c / triS a b c) • c := rfl
  have hqa : V3.dot (triQ a b c) (a - triQ a b c) = 0 := by
    have hrw : a - triQ a b c = (-(triVb a b c / triS a b c)) • (b - a) +
        (-(triVc a b c / triS a b c)) • (c - a) := by
      rw [triQ_in_plane a b c hS]
      ext <;> simp <;> ring
    rw [hrw, V3.dot_add_right, V3.dot_smul_right, V3.dot_smul_right,
      triQ_dot_ab a b c hS, triQ_dot_ac a b c hS]
    ring
  have hqb : V3.dot (triQ a b c) (b - triQ a b c) = 0 := by
    have hrw : b - triQ a b c = (1 - triVb a b c / triS a b c) • (b - a) +
        (-(triVc a b c / triS a b c)) • (c - a) := by
      rw [triQ_in_plane a b c hS]
      ext <;> simp <;> ring
    rw [hrw, V3.dot_add_right, V3.dot_smul_right, V3.dot_smul_right,
      triQ_dot_ab a b c hS, triQ_dot_ac a b c hS]
    ring
  have hqc : V3.dot (triQ a b c) (c - triQ a b c) = 0 := by
    have hrw : c - triQ a b c = (-(triVb a b c / triS a b c)) • (b - a) +
        (1 - triVc a b c / triS a b c) • (c - a) := by
      rw [triQ_in_plane a b c hS]
      ext <;> simp <;> ring
    rw [hrw, V3.dot_add_right, V3.dot_smul_right, V3.dot_smul_right,
      triQ_dot_ab a b c hS, triQ_dot_ac a b c hS]
    ring
  by_cases hg : 0 ≤ triVa a b c ∧ 0 ≤ triVb a b c ∧ 0 ≤ triVc a b c
  · simp only [triangleProjectOrigin]
    rw [if_pos hg]
    have hna : 0 ≤ triVa a b c / triS a b c := div_nonneg hg.1 (le_of_lt hSpos)
    have hnb : 0 ≤ triVb a b c / triS a b c := div_nonneg hg.2.1 (le_of_lt hSpos)
    have hnc : 0 ≤ triVc a b c / triS a b c := div_nonneg hg.2.2 (le_of_lt hSpos)
    constructor
    · exact isClosestPt3_of_dots a b c (triQ a b c)
        ⟨_, _, _, hna, hnb, hnc, hsum1, hqcomb⟩
        (le_of_eq hqa.symm) (le_of_eq hqb.symm) (le_of_eq hqc.symm)
    · exact ⟨hna, hnb, hnc, hsum1, hqcomb⟩
  · simp only [triangleProjectOrigin]
    rw [if_neg hg]
    obtain ⟨hm0, hf0⟩ := segmentProjectOrigin_correct a b
    obtain ⟨hm1, hf1⟩ := segmentProjectOrigin_correct b c
    obtain ⟨hm2, hf2⟩ := segmentProjectOrigin_correct c a
    set c0 : V3 × TrianglePointLocation :=
      ((segmentProjectOrigin a b).1, mapSegLocToTri 0 (segmentProjectOrigin a b).2)
      with hc0
    set c1 : V3 × TrianglePointLocation :=
      ((segmentProjectOrigin b c).1, mapSegLocToTri 1 (segmentProjectOrigin b c).2)
      with hc1
    set c2 : V3 × TrianglePointLocation :=
      ((segmentProjectOrigin c a).1, mapSegLocToTri 2 (segmentProjectOrigin c a).2)
      with hc2
    have hRcases : pickCloser (pickCloser c0 c1) c2 = c0 ∨
        pickCloser (pickCloser c0 c1) c2 = c1 ∨
        pickCloser (pickCloser c0 c1) c2 = c2 := by
      rcases pickCloser_eq_or (pickCloser c0 c1) c2 with h | h
      · rcases pickCloser_eq_or c0 c1 with h2 | h2
        · left
          rw [h, h2]
        · right
          left
          rw [h, h2]
      · right
        right
        exact h
    have hRle0 : V3.normSq (pickCloser (pickCloser c0 c1) c2).1 ≤ V3.normSq c0.1 :=
      le_trans (pickCloser_le_left _ _) (pickCloser_le_left _ _)
    have hRle1 : V3.normSq (pickCloser (pickCloser c0 c1) c2).1 ≤ V3.normSq c1.1 :=
      le_trans (pickCloser_le_left _ _) (pickCloser_le_right _ _)
    have hRle2 : V3.normSq (pickCloser (pickCloser c0 c1) c2).1 ≤ V3.normSq c2.1 :=
      pickCloser_le_right _ _
    constructor
    · constructor
      · -- membership: the winner lies on an edge, hence in the triangle.
        rcases hRcases with h | h | h <;> rw [h]
        · obtain ⟨w1, w2, hw1, hw2, hws, hwp⟩ := hm0.1
          exact ⟨w1, w2, 0, hw1, hw2, le_refl 0, by linarith, by
            rw [hwp]
            ext <;> simp⟩
        · obtain ⟨w1, w2, hw1, hw2, hws, hwp⟩ := hm1.1
          exact ⟨0, w1, w2, le_refl 0, hw1, hw2, by linarith, by
            rw [hwp]
            ext <;> simp⟩
        · obtain ⟨w1, w2, hw1, hw2, hws, hwp⟩ := hm2.1
          exact ⟨w2, 0, w1, hw2, le_refl 0, hw1, by linarith, by
            rw [hwp]
            ext <;> simp <;> ring⟩
      · -- minimality via the boundary-reduction argument.
        intro w1 w2 w3 h1 h2 h3 hsum
        have hneg : triVa a b c / triS a b c < 0 ∨ triVb a b c / triS a b c < 0 ∨
            triVc a b c / triS a b c < 0 := by
          rcases not_and_or.mp hg with h | h
          · exact Or.inl (div_neg_of_neg_of_pos (not_le.mp h) hSpos)
          · rcases not_and_or.mp h with h | h
            · exact Or.inr (Or.inl (div_neg_of_neg_of_pos (not_le.mp h) hSpos))
            · exact Or.inr (Or.inr (div_neg_of_neg_of_pos (not_le.mp h) hSpos))
        obtain ⟨τ, hτ0, hτ1, hφ1, hφ2, hφ3, hφz⟩ :=
          crossing3 (triVa a b c / triS a b c) (triVb a b c / triS a b c)
            (triVc a b c / triS a b c) w1 w2 w3 h1 h2 h3 hneg
        set φ1 := (1 - τ) * (triVa a b c / triS a b c) + τ * w1 with hφ1d
        set φ2 := (1 - τ) * (triVb a b c / triS a b c) + τ * w2 with hφ2d
        set φ3 := (1 - τ) * (triVc a b c / triS a b c) + τ * w3 with hφ3d
        have hφsum : φ1 + φ2 + φ3 = 1 := by
          rw [hφ1d, hφ2d, hφ3d]
          nlinarith [hsum1, hsum]
        have hx' : w1 • a + w2 • b + w3 • c = a + w2 • (b - a) + w3 • (c - a) := by
          ext
          · simp
            linear_combination a.x * hsum
          · simp
            linear_combination a.y * hsum
          · simp
            linear_combination a.z * hsum
        have hy' : φ1 • a + φ2 • b + φ3 • c = a + φ2 • (b - a) + φ3 • (c - a) := by
          ext
          · simp
            linear_combination a.x * hφsum
          · simp
            linear_combination a.y * hφsum
          · simp
            linear_combination a.z * hφsum
        have hxq : w1 • a + w2 • b + w3 • c - triQ a b c =
            (w2 - triVb a b c / triS a b c) • (b - a) +
              (w3 - triVc a b c / triS a b c) • (c - a) := by
          rw [hx', triQ_in_plane a b c hS]
          ext <;> simp <;> ring
        have hyq : φ1 • a + φ2 • b + φ3 • c - triQ a b c =
            τ • (w1 • a + w2 • b + w3 • c - triQ a b c) := by
          rw [hy', hx', triQ_in_plane a b c hS]
          have e2 : φ2 - triVb a b c / triS a b c = τ * (w2 - triVb a b c / triS a b c) := by
            rw [hφ2d]
            ring
          have e3 : φ3 - triVc a b c / triS a b c = τ * (w3 - triVc a b c / triS a b c) := by
            rw [hφ3d]
            ring
          ext
          · simp
            linear_combination (b.x - a.x) * e2 + (c.x - a.x) * e3
          · simp
            linear_combination (b.y - a.y) * e2 + (c.y - a.y) * e3
          · simp
            linear_combination (b.z - a.z) * e2 + (c.z - a.z) * e3
        have hdxq : V3.dot (triQ a b c) (w1 • a + w2 • b + w3 • c - triQ a b c) = 0 := by
          rw [hxq, V3.dot_add_right, V3.dot_smul_right, V3.dot_smul_right,
            triQ_dot_ab a b c hS, triQ_dot_ac a b c hS]
          ring
        have hxsplit : V3.normSq (w1 • a + w2 • b + w3 • c) =
            V3.normSq (triQ a b c) + V3.normSq (w1 • a + w2 • b + w3 • c - triQ a b c) := by
          have h := normSq_add_of_dot_zero (triQ a b c)
            (w1 • a + w2 • b + w3 • c - triQ a b c) hdxq
          have hx2 : triQ a b c + (w1 • a + w2 • b + w3 • c - triQ a b c) =
              w1 • a + w2 • b + w3 • c := by
            ext <;> simp
          rw [hx2] at h
          exact h
        have hysplit : V3.normSq (φ1 • a + φ2 • b + φ3 • c) =
            V3.normSq (triQ a b c) +
              τ ^ 2 * V3.normSq (w1 • a + w2 • b + w3 • c - triQ a b c) := by
          have hy2 : φ1 • a + φ2 • b + φ3 • c =
              triQ a b c + τ • (w1 • a + w2 • b + w3 • c - triQ a b c) := by
            have := hyq
            ext
            · have h := congrArg V3.x this
              simp at h ⊢
              linarith
            · have h := congrArg V3.y this
              simp at h ⊢
              linarith
            · have h := congrArg V3.z this
              simp at h ⊢
              linarith
          rw [hy2, V3.normSq_expand, V3.dot_smul_right, hdxq, normSq_smul]
          ring
        have hyx : V3.normSq (φ1 • a + φ2 • b + φ3 • c) ≤
            V3.normSq (w1 • a + w2 • b + w3 • c) := by
          rw [hysplit, hxsplit]
          have hq2 : τ ^ 2 ≤ 1 := by nlinarith
          nlinarith [V3.normSq_nonneg (w1 • a + w2 • b + w3 • c - triQ a b c)]
        have hkey : V3.normSq (pickCloser (pickCloser c0 c1) c2).1 ≤
            V3.normSq (φ1 • a + φ2 • b + φ3 • c) := by
          rcases hφz with hz | hz | hz
          · -- φ1 = 0: the crossing point lies on edge bc.
            have hy3 : φ1 • a + φ2 • b + φ3 • c = φ2 • b + φ3 • c := by
              rw [hz]
              ext <;> simp
            have hmin := hm1.2 φ2 φ3 hφ2 hφ3 (by linarith [hφsum, hz])
            rw [hy3]
            exact le_trans hRle1 hmin
          · -- φ2 = 0: the crossing point lies on edge ca.
            have hy3 : φ1 • a + φ2 • b + φ3 • c = φ3 • c + φ1 • a := by
              rw [hz]
              ext <;> simp <;> ring
            have hmin := hm2.2 φ3 φ1 hφ3 hφ1 (by linarith [hφsum, hz])
            rw [hy3]
            exact le_trans hRle2 hmin
          · -- φ3 = 0: the crossing point lies on edge ab.
            have hy3 : φ1 • a + φ2 • b + φ3 • c = φ1 • a + φ2 • b := by
              rw [hz]
              ext <;> simp
            have hmin := hm0.2 φ1 φ2 hφ1 hφ2 (by linarith [hφsum, hz])
            rw [hy3]
            exact le_trans hRle0 hmin
        exact le_trans hkey hyx
    · -- the location payload facts of the winner.
      rcases hRcases with h | h | h <;> rw [h]
      · rw [hc0]
        rcases hl : (segmentProjectOrigin a b).2 with i | co
        · rw [hl] at hf0
          unfold SegLocFacts at hf0
          fin_cases i
          · simpa [mapSegLocToTri, TriLocFacts] using hf0
          · simpa [mapSegLocToTri, TriLocFacts] using hf0
        · rw [hl] at hf0
          unfold SegLocFacts at hf0
          simpa [mapSegLocToTri, TriLocFacts] using hf0
      · rw [hc1]
        rcases hl : (segmentProjectOrigin b c).2 with i | co
        · rw [hl] at hf1
          unfold SegLocFacts at hf1
          fin_cases i
          · simpa [mapSegLocToTri, TriLocFacts] using hf1
          · simpa [mapSegLocToTri, TriLocFacts] using hf1
        · rw [hl] at hf1
          unfold SegLocFacts at hf1
          simpa [mapSegLocToTri, TriLocFacts] using hf1
      · rw [hc2]
        rcases hl : (segmentProjectOrigin c a).2 with i | co
        · rw [hl] at hf2
          unfold SegLocFacts at hf2
          fin_cases i
          · simpa [mapSegLocToTri, TriLocFacts] using hf2
          · simpa [mapSegLocToTri, TriLocFacts] using hf2
        · rw [hl] at hf2
          unfold SegLocFacts at hf2
          obtain ⟨hv1, hv2, hvs, hvp⟩ := hf2
          refine ⟨hv2, hv1, by linarith, ?_⟩
          simp only [mapSegLocToTri]
          rw [if_neg (by decide), if_neg (by decide)]
          rw [hvp]
          ext <;> simp <;> ring

/-- Six times the signed volume of the tetrahedron `[a, b, c, d]`. -/
noncomputable def tetDet (a b c d : V3) : ℝ :=
  V3.dot (b - a) (V3.cross (c - a) (d - a))

/-- Barycentric coordinate of the origin along `b` (Cramer). -/
noncomputable def tetBeta (a b c d : V3) : ℝ :=
  V3.dot (-a) (V3.cross (c - a) (d - a)) / tetDet a b c d

/-- Barycentric coordinate of the origin along `c` (Cramer). -/
noncomputable def tetGamma (a b c d : V3) : ℝ :=
  V3.dot (-a) (V3.cross (d - a) (b - a)) / tetDet a b c d

/-- Barycentric coordinate of the origin along `d` (Cramer). -/
noncomputable def tetDelta (a b c d : V3) : ℝ :=
  V3.dot (-a) (V3.cross (b - a) (c - a)) / tetDet a b c d

/-- Barycentric coordinate of the origin along `a`. -/
noncomputable def tetAlpha (a b c d : V3) : ℝ :=
  1 - tetBeta a b c d - tetGamma a b c d - tetDelta a b c d

/-- Tetrahedron vertex index of vertex `i` of face `f`
(faces `0..3 = abc, abd, acd, bcd`). -/
def tetFaceVertex (f : Fin 4) (i : Fin 3) : Fin 4 :=
  if f = 0 then (if i = 0 then 0 else if i = 1 then 1 else 2)
  else if f = 1 then (if i = 0 then 0 else if i = 1 then 1 else 3)
  else if f = 2 then (if i = 0 then 0 else if i = 1 then 2 else 3)
  else (if i = 0 then 1 else if i = 1 then 2 else 3)

/-- Tetrahedron edge index of edge `e` of face `f`
(edges `0..5 = ab, ac, ad, bc, bd, cd`). -/
def tetFaceEdge (f : Fin 4) (e : Fin 3) : Fin 6 :=
  if f = 0 then (if e = 0 then 0 else if e = 1 then 3 else 1)
  else if f = 1 then (if e = 0 then 0 else if e = 1 then 4 else 2)
  else if f = 2 then (if e = 0 then 1 else if e = 1 then 5 else 2)
  else (if e = 0 then 3 else if e = 1 then 5 else 4)

/-- Map a triangle-projection location on face `f` of a tetrahedron to the
tetrahedron-level location.  With the face vertices listed in ascending
vertex order and the triangle edge-2 coordinates already reported in
`(first, last)` order, no coordinate swap is needed. -/
def mapTriLocToTet (f : Fin 4) : TrianglePointLocation → TetrahedronPointLocation
  | .OnVertex i => .OnVertex (tetFaceVertex f i)
  | .OnEdge e co => .OnEdge (tetFaceEdge f e) co
  | .OnFace co => .OnFace f co
  | .OnSolid => .OnSolid

/-- Modelled from the spec: exact projection of the origin onto the
tetrahedron `[a, b, c, d]` with region classification.  If the origin has
non-negative barycentric coordinates it lies inside the tetrahedron
(`OnSolid`, the projection is the origin itself); otherwise the closest
point lies on the boundary and is the closest of the four face
projections. -/
noncomputable def tetProjectOrigin (a b c d : V3) : V3 × TetrahedronPointLocation :=
  if 0 ≤ tetAlpha a b c d ∧ 0 ≤ tetBeta a b c d ∧ 0 ≤ tetGamma a b c d ∧
      0 ≤ tetDelta a b c d then
    (0, .OnSolid)
  else
    let r0 := triangleProjectOrigin a b c
    let r1 := triangleProjectOrigin a b d
    let r2 := triangleProjectOrigin a c d
    let r3 := triangleProjectOrigin b c d
    pickCloser (pickCloser (pickCloser (r0.1, mapTriLocToTet 0 r0.2)
      (r1.1, mapTriLocToTet 1 r1.2)) (r2.1, mapTriLocToTet 2 r2.2))
      (r3.1, mapTriLocToTet 3 r3.2)

/-- The per-location payload facts of the tetrahedron projector
(edges `0..5 = ab, ac, ad, bc, bd, cd`, faces `0..3 = abc, abd, acd, bcd`,
coordinates listed in ascending vertex order). -/
def TetLocFacts (a b c d p : V3) : TetrahedronPointLocation → Prop
  | .OnVertex i =>
      p = if i = 0 then a else if i = 1 then b else if i = 2 then c else d
  | .OnEdge i co =>
      0 ≤ co.1 ∧ 0 ≤ co.2 ∧ co.1 + co.2 = 1 ∧
      (if i = 0 then p = co.1 • a + co.2 • b
       else if i = 1 then p = co.1 • a + co.2 • c
       else if i = 2 then p = co.1 • a + co.2 • d
       else if i = 3 then p = co.1 • b + co.2 • c
       else if i = 4 then p = co.1 • b + co.2 • d
       else p = co.1 • c + co.2 • d)
  | .OnFace i co =>
      0 ≤ co.1 ∧ 0 ≤ co.2.1 ∧ 0 ≤ co.2.2 ∧ co.1 + co.2.1 + co.2.2 = 1 ∧
      (if i = 0 then p = co.1 • a + co.2.1 • b + co.2.2 • c
       else if i = 1 then p = co.1 • a + co.2.1 • b + co.2.2 • d
       else if i = 2 then p = co.1 • a + co.2.1 • c + co.2.2 • d
       else p = co.1 • b + co.2.1 • c + co.2.2 • d)
  | .OnSolid => p = 0

/-- The determinant as a triple product against the `abc` face normal. -/
theorem tetDet_perm_d (a b c d : V3) :
    tetDet a b c d = V3.dot (d - a) (V3.cross (b - a) (c - a)) := by
  unfold tetDet V3.dot V3.cross
  simp
  ring

/-- The determinant as a triple product against the `abd` face normal. -/
theorem tetDet_perm_c (a b c d : V3) :
    tetDet a b c d = -V3.dot (c - a) (V3.cross (b - a) (d - a)) := by
  unfold tetDet V3.dot V3.cross
  simp
  ring

/-- The determinant as a triple product against the `bcd` face normal. -/
theorem tetDet_perm_base (a b c d : V3) :
    tetDet a b c d = -V3.dot (a - b) (V3.cross (c - b) (d - b)) := by
  unfold tetDet V3.dot V3.cross
  simp
  ring

theorem dot_zero_right (u : V3) : V3.dot u 0 = 0 := by
  unfold V3.dot
  simp [V3.zero_def]

/-- The origin's barycentric coordinates sum to one. -/
theorem tet_coords_sum (a b c d : V3) :
    tetAlpha a b c d + tetBeta a b c d + tetGamma a b c d + tetDelta a b c d = 1 := by
  unfold tetAlpha
  ring

/-- Cramer reconstruction: the barycentric combination recovers the origin. -/
theorem tet_origin_comb (a b c d : V3) (hdet : tetDet a b c d ≠ 0) :
    tetAlpha a b c d • a + tetBeta a b c d • b + tetGamma a b c d • c +
      tetDelta a b c d • d = 0 := by
  ext <;>
    (simp only [V3.smul_def, V3.add_def, V3.zero_def]
     unfold tetAlpha tetBeta tetGamma tetDelta
     field_simp
     unfold tetDet V3.dot V3.cross at *
     simp at *
     ring)

set_option maxHeartbeats 1600000 in
/-- Correctness of the tetrahedron projector for non-degenerate tetrahedra:
the returned point is the point of the tetrahedron closest to the origin, and
the returned location carries the matching barycentric data. -/
theorem tetProjectOrigin_correct (a b c d : V3) (hdet : tetDet a b c d ≠ 0) :
    IsClosestPt4 a b c d (tetProjectOrigin a b c d).1 ∧
    TetLocFacts a b c d (tetProjectOrigin a b c d).1 (tetProjectOrigin a b c d).2 := by
  have hn0 : V3.cross (b - a) (c - a) ≠ 0 := by
    intro h
    apply hdet
    rw [tetDet_perm_d, h, dot_zero_right]
  have hn1 : V3.cross (b - a) (d - a) ≠ 0 := by
    intro h
    apply hdet
    rw [tetDet_perm_c, h, dot_zero_right, neg_zero]
  have hn2 : V3.cross (c - a) (d - a) ≠ 0 := by
    intro h
    apply hdet
    unfold tetDet
    rw [h, dot_zero_right]
  have hn3 : V3.cross (c - b) (d - b) ≠ 0 := by
    intro h
    apply hdet
    rw [tetDet_perm_base, h, dot_zero_right, neg_zero]
  obtain ⟨hm0, hf0⟩ := triangleProjectOrigin_correct a b c hn0
  obtain ⟨hm1, hf1⟩ := triangleProjectOrigin_correct a b d hn1
  obtain ⟨hm2, hf2⟩ := triangleProjectOrigin_correct a c d hn2
  obtain ⟨hm3, hf3⟩ := triangleProjectOrigin_correct b c d hn3
  have hcomb := tet_origin_comb a b c d hdet
  have hsumq := tet_coords_sum a b c d
  have h0x : tetAlpha a b c d * a.x + tetBeta a b c d * b.x +
      tetGamma a b c d * c.x + tetDelta a b c d * d.x = 0 := by
    simpa using congrArg V3.x hcomb
  have h0y : tetAlpha a b c d * a.y + tetBeta a b c d * b.y +
      tetGamma a b c d * c.y + tetDelta a b c d * d.y = 0 := by
    simpa using congrArg V3.y hcomb
  have h0z : tetAlpha a b c d * a.z + tetBeta a b c d * b.z +
      tetGamma a b c d * c.z + tetDelta a b c d * d.z = 0 := by
    simpa using congrArg V3.z hcomb
  by_cases hg : 0 ≤ tetAlpha a b c d ∧ 0 ≤ tetBeta a b c d ∧ 0 ≤ tetGamma a b c d ∧
      0 ≤ tetDelta a b c d
  · simp only [tetProjectOrigin]
    rw [if_pos hg]
    refine ⟨⟨⟨tetAlpha a b c d, tetBeta a b c d, tetGamma a b c d, tetDelta a b c d,
      hg.1, hg.2.1, hg.2.2.1, hg.2.2.2, hsumq, hcomb.symm⟩, ?_⟩, rfl⟩
    intro w1 w2 w3 w4 h1 h2 h3 h4 hs
    have h0 : V3.normSq (((0 : V3), TetrahedronPointLocation.OnSolid)).1 = 0 := by
      unfold V3.normSq V3.dot
      simp [V3.zero_def]
    exact le_trans (le_of_eq h0) (V3.normSq_nonneg _)
  · simp only [tetProjectOrigin]
    rw [if_neg hg]
    set c0 : V3 × TetrahedronPointLocation :=
      ((triangleProjectOrigin a b c).1, mapTriLocToTet 0 (triangleProjectOrigin a b c).2)
      with hcc0
    set c1 : V3 × TetrahedronPointLocation :=
      ((triangleProjectOrigin a b d).1, mapTriLocToTet 1 (triangleProjectOrigin a b d).2)
      with hcc1
    set c2 : V3 × TetrahedronPointLocation :=
      ((triangleProjectOrigin a c d).1, mapTriLocToTet 2 (triangleProjectOrigin a c d).2)
      with hcc2
    set c3 : V3 × TetrahedronPointLocation :=
      ((triangleProjectOrigin b c d).1, mapTriLocToTet 3 (triangleProjectOrigin b c d).2)
      with hcc3
    have hRcases : pickCloser (pickCloser (pickCloser c0 c1) c2) c3 = c0 ∨
        pickCloser (pickCloser (pickCloser c0 c1) c2) c3 = c1 ∨
        pickCloser (pickCloser (pickCloser c0 c1) c2) c3 = c2 ∨
        pickCloser (pickCloser (pickCloser c0 c1) c2) c3 = c3 := by
      rcases pickCloser_eq_or (pickCloser (pickCloser c0 c1) c2) c3 with h | h
      · rcases pickCloser_eq_or (pickCloser c0 c1) c2 with h2 | h2
        · rcases pickCloser_eq_or c0 c1 with h3 | h3
          · left
            rw [h, h2, h3]
          · right
            left
            rw [h, h2, h3]
        · right
          right
          left
          rw [h, h2]
      · right
        right
        right
        exact h
    have hRle0 : V3.normSq (pickCloser (pickCloser (pickCloser c0 c1) c2) c3).1 ≤
        V3.normSq c0.1 :=
      le_trans (pickCloser_le_left _ _)
        (le_trans (pickCloser_le_left _ _) (pickCloser_le_left _ _))
    have hRle1 : V3.normSq (pickCloser (pickCloser (pickCloser c0 c1) c2) c3).1 ≤
        V3.normSq c1.1 :=
      le_trans (pickCloser_le_left _ _)
        (le_trans (pickCloser_le_left _ _) (pickCloser_le_right _ _))
    have hRle2 : V3.normSq (pickCloser (pickCloser (pickCloser c0 c1) c2) c3).1 ≤
        V3.normSq c2.1 :=
      le_trans (pickCloser_le_left _ _) (pickCloser_le_right _ _)
    have hRle3 : V3.normSq (pickCloser (pickCloser (pickCloser c0 c1) c2) c3).1 ≤
        V3.normSq c3.1 :=
      pickCloser_le_right _ _
    constructor
    · constructor
      · -- membership: the winner lies on a face, hence in the tetrahedron.
        rcases hRcases with h | h | h | h <;> rw [h]
        · obtain ⟨w1, w2, w3, hw1, hw2, hw3, hws, hwp⟩ := hm0.1
          exact ⟨w1, w2, w3, 0, hw1, hw2, hw3, le_refl 0, by linarith, by
            rw [hwp]
            ext <;> simp⟩
        · obtain ⟨w1, w2, w3, hw1, hw2, hw3, hws, hwp⟩ := hm1.1
          exact ⟨w1, w2, 0, w3, hw1, hw2, le_refl 0, hw3, by linarith, by
            rw [hwp]
            ext <;> simp⟩
        · obtain ⟨w1, w2, w3, hw1, hw2, hw3, hws, hwp⟩ := hm2.1
          exact ⟨w1, 0, w2, w3, hw1, le_refl 0, hw2, hw3, by linarith, by
            rw [hwp]
            ext <;> simp⟩
        · obtain ⟨w1, w2, w3, hw1, hw2, hw3, hws, hwp⟩ := hm3.1
          exact ⟨0, w1, w2, w3, le_refl 0, hw1, hw2, hw3, by linarith, by
            rw [hwp]
            ext <;> simp⟩
      · -- minimality via the boundary-reduction argument from the origin.
        intro w1 w2 w3 w4 h1 h2 h3 h4 hs
        have hneg : tetAlpha a b c d < 0 ∨ tetBeta a b c d < 0 ∨
            tetGamma a b c d < 0 ∨ tetDelta a b c d < 0 := by
          rcases not_and_or.mp hg with h | h
          · exact Or.inl (not_le.mp h)
          · rcases not_and_or.mp h with h | h
            · exact Or.inr (Or.inl (not_le.mp h))
            · rcases not_and_or.mp h with h | h
              · exact Or.inr (Or.inr (Or.inl (not_le.mp h)))
              · exact Or.inr (Or.inr (Or.inr (not_le.mp h)))
        obtain ⟨τ, hτ0, hτ1, hφ1, hφ2, hφ3, hφ4, hφz⟩ :=
          crossing4 (tetAlpha a b c d) (tetBeta a b c d) (tetGamma a b c d)
            (tetDelta a b c d) w1 w2 w3 w4 h1 h2 h3 h4 hneg
        set φ1 := (1 - τ) * tetAlpha a b c d + τ * w1 with hφ1d
        set φ2 := (1 - τ) * tetBeta a b c d + τ * w2 with hφ2d
        set φ3 := (1 - τ) * tetGamma a b c d + τ * w3 with hφ3d
        set φ4 := (1 - τ) * tetDelta a b c d + τ * w4 with hφ4d
        have hφsum : φ1 + φ2 + φ3 + φ4 = 1 := by
          rw [hφ1d, hφ2d, hφ3d, hφ4d]
          linear_combination (1 - τ) * hsumq + τ * hs
        have hycomb : φ1 • a + φ2 • b + φ3 • c + φ4 • d =
            τ • (w1 • a + w2 • b + w3 • c + w4 • d) := by
          rw [hφ1d, hφ2d, hφ3d, hφ4d]
          ext
          · simp
            linear_combination (1 - τ) * h0x
          · simp
            linear_combination (1 - τ) * h0y
          · simp
            linear_combination (1 - τ) * h0z
        have hyx : V3.normSq (φ1 • a + φ2 • b + φ3 • c + φ4 • d) ≤
            V3.normSq (w1 • a + w2 • b + w3 • c + w4 • d) := by
          rw [hycomb, normSq_smul]
          have hq2 : τ ^ 2 ≤ 1 := by nlinarith
          nlinarith [V3.normSq_nonneg (w1 • a + w2 • b + w3 • c + w4 • d)]
        rcases hφz with hz | hz | hz | hz
        · -- φ1 = 0: the crossing point lies on face bcd.
          have hy3 : φ1 • a + φ2 • b + φ3 • c + φ4 • d = φ2 • b + φ3 • c + φ4 • d := by
            rw [hz]
            ext <;> simp
          have hmin := hm3.2 φ2 φ3 φ4 hφ2 hφ3 hφ4 (by linarith [hφsum, hz])
          have hyy : V3.normSq (φ2 • b + φ3 • c + φ4 • d) ≤
              V3.normSq (w1 • a + w2 • b + w3 • c + w4 • d) := by
            rw [← hy3]
            exact hyx
          exact le_trans hRle3 (le_trans hmin hyy)
        · -- φ2 = 0: the crossing point lies on face acd.
          have hy3 : φ1 • a + φ2 • b + φ3 • c + φ4 • d = φ1 • a + φ3 • c + φ4 • d := by
            rw [hz]
            ext <;> simp
          have hmin := hm2.2 φ1 φ3 φ4 hφ1 hφ3 hφ4 (by linarith [hφsum, hz])
          have hyy : V3.normSq (φ1 • a + φ3 • c + φ4 • d) ≤
              V3.normSq (w1 • a + w2 • b + w3 • c + w4 • d) := by
            rw [← hy3]
            exact hyx
          exact le_trans hRle2 (le_trans hmin hyy)
        · -- φ3 = 0: the crossing point lies on face abd.
          have hy3 : φ1 • a + φ2 • b + φ3 • c + φ4 • d = φ1 • a + φ2 • b + φ4 • d := by
            rw [hz]
            ext <;> simp
          have hmin := hm1.2 φ1 φ2 φ4 hφ1 hφ2 hφ4 (by linarith [hφsum, hz])
          have hyy : V3.normSq (φ1 • a + φ2 • b + φ4 • d) ≤
              V3.normSq (w1 • a + w2 • b + w3 • c + w4 • d) := by
            rw [← hy3]
            exact hyx
          exact le_trans hRle1 (le_trans hmin hyy)
        · -- φ4 = 0: the crossing point lies on face abc.
          have hy3 : φ1 • a + φ2 • b + φ3 • c + φ4 • d = φ1 • a + φ2 • b + φ3 • c := by
            rw [hz]
            ext <;> simp
          have hmin := hm0.2 φ1 φ2 φ3 hφ1 hφ2 hφ3 (by linarith [hφsum, hz])
          have hyy : V3.normSq (φ1 • a + φ2 • b + φ3 • c) ≤
              V3.normSq (w1 • a + w2 • b + w3 • c + w4 • d) := by
            rw [← hy3]
            exact hyx
          exact le_trans hRle0 (le_trans hmin hyy)
    · -- the location payload facts of the winner.
      rcases hRcases with h | h | h | h <;> rw [h]
      · rw [hcc0]
        rcases hl : (triangleProjectOrigin a b c).2 with i | ⟨e, co⟩ | co | hco
        · rw [hl] at hf0
          simp only [TriLocFacts] at hf0
          fin_cases i
          · simpa [mapTriLocToTet, tetFaceVertex, TetLocFacts] using hf0
          · simpa [mapTriLocToTet, tetFaceVertex, TetLocFacts] using hf0
          · simpa [mapTriLocToTet, tetFaceVertex, TetLocFacts] using hf0
        · rw [hl] at hf0
          simp only [TriLocFacts] at hf0
          fin_cases e
          · simpa [mapTriLocToTet, tetFaceEdge, TetLocFacts] using hf0
          · simpa [mapTriLocToTet, tetFaceEdge, TetLocFacts] using hf0
          · simpa [mapTriLocToTet, tetFaceEdge, TetLocFacts] using hf0
        · rw [hl] at hf0
          simp only [TriLocFacts] at hf0
          simpa [mapTriLocToTet, TetLocFacts] using hf0
        · rw [hl] at hf0
          simp only [TriLocFacts] at hf0
      · rw [hcc1]
        rcases hl : (triangleProjectOrigin a b d).2 with i | ⟨e, co⟩ | co | hco
        · rw [hl] at hf1
          simp only [TriLocFacts] at hf1
          fin_cases i
          · simpa [mapTriLocToTet, tetFaceVertex, TetLocFacts] using hf1
          · simpa [mapTriLocToTet, tetFaceVertex, TetLocFacts] using hf1
          · simpa [mapTriLocToTet, tetFaceVertex, TetLocFacts] using hf1
        · rw [hl] at hf1
          simp only [TriLocFacts] at hf1
          fin_cases e
          · simpa [mapTriLocToTet, tetFaceEdge, TetLocFacts] using hf1
          · simpa [mapTriLocToTet, tetFaceEdge, TetLocFacts] using hf1
          · simpa [mapTriLocToTet, tetFaceEdge, TetLocFacts] using hf1
        · rw [hl] at hf1
          simp only [TriLocFacts] at hf1
          simpa [mapTriLocToTet, TetLocFacts] using hf1
        · rw [hl] at hf1
          simp only [TriLocFacts] at hf1
      · rw [hcc2]
        rcases hl : (triangleProjectOrigin a c d).2 with i | ⟨e, co⟩ | co | hco
        · rw [hl] at hf2
          simp only [TriLocFacts] at hf2
          fin_cases i
          · simpa [mapTriLocToTet, tetFaceVertex, TetLocFacts] using hf2
          · simpa [mapTriLocToTet, tetFaceVertex, TetLocFacts] using hf2
          · simpa [mapTriLocToTet, tetFaceVertex, TetLocFacts] using hf2
        · rw [hl] at hf2
          simp only [TriLocFacts] at hf2
          fin_cases e
          · simpa [mapTriLocToTet, tetFaceEdge, TetLocFacts] using hf2
          · simpa [mapTriLocToTet, tetFaceEdge, TetLocFacts] using hf2
          · simpa [mapTriLocToTet, tetFaceEdge, TetLocFacts] using hf2
        · rw [hl] at hf2
          simp only [TriLocFacts] at hf2
          simpa [mapTriLocToTet, TetLocFacts] using hf2
        · rw [hl] at hf2
          simp only [TriLocFacts] at hf2
      · rw [hcc3]
        rcases hl : (triangleProjectOrigin b c d).2 with i | ⟨e, co⟩ | co | hco
        · rw [hl] at hf3
          simp only [TriLocFacts] at hf3
          fin_cases i
          · simpa [mapTriLocToTet, tetFaceVertex, TetLocFacts] using hf3
          · simpa [mapTriLocToTet, tetFaceVertex, TetLocFacts] using hf3
          · simpa [mapTriLocToTet, tetFaceVertex, TetLocFacts] using hf3
        · rw [hl] at hf3
          simp only [TriLocFacts] at hf3
          fin_cases e
          · simpa [mapTriLocToTet, tetFaceEdge, TetLocFacts] using hf3
          · simpa [mapTriLocToTet, tetFaceEdge, TetLocFacts] using hf3
          · simpa [mapTriLocToTet, tetFaceEdge, TetLocFacts] using hf3
        · rw [hl] at hf3
          simp only [TriLocFacts] at hf3
          simpa [mapTriLocToTet, TetLocFacts] using hf3
        · rw [hl] at hf3
          simp only [TriLocFacts] at hf3

namespace VoronoiSimplex

/-- `Simplex::project_origin_and_reduce()`: returns the projection of the
origin onto the current simplex and the reduced state; `none` models a panic:
either the failing `assert!(self.dim == 3)` for dimensions above 3, or the
out-of-bounds `prev_proj.swap` inside `swap` whenever the reduction's swap
table touches slot 3 (the dimension-3 vertex-3, ad, bd and cd reductions).
The exact swap/coordinate bookkeeping of the source is reproduced: the
dimension-1 `OnEdge` and dimension-3 `OnSolid` branches leave the state
untouched, edge reductions follow the 6-entry swap table with coordinates
swapped for edges 3 and 4, and face reductions follow the 4-entry
substitution table. -/
noncomputable def projectOriginAndReduce (s : VoronoiSimplex) :
    Option (V3 × VoronoiSimplex) :=
  if s.dim = 0 then
    some (s.vertices 0, { s with proj := Function.update s.proj 0 1 })
  else if s.dim = 1 then
    let r := segmentProjectOrigin (s.vertices 0) (s.vertices 1)
    match r.2 with
    | .OnVertex i =>
        if i = 0 then
          some (r.1, { s with proj := Function.update s.proj 0 1, dim := 0 })
        else
          (s.swap 0 1).map (fun s2 =>
            (r.1, { s2 with proj := Function.update s2.proj 0 1, dim := 0 }))
    | .OnEdge _ => some (r.1, s)
  else if s.dim = 2 then
    let r := triangleProjectOrigin (s.vertices 0) (s.vertices 1) (s.vertices 2)
    match r.2 with
    | .OnVertex i =>
        (s.swap 0 (Fin.castLE (by norm_num) i)).map (fun s2 =>
          (r.1, { s2 with proj := Function.update s2.proj 0 1, dim := 0 }))
    | .OnEdge e co =>
        if e = 0 then
          some (r.1, { s with proj := Function.update (Function.update s.proj 0 co.1) 1 co.2, dim := 1 })
        else if e = 1 then
          (s.swap 0 2).map (fun s2 =>
            (r.1, { s2 with proj := Function.update (Function.update s2.proj 0 co.2) 1 co.1, dim := 1 }))
        else
          (s.swap 1 2).map (fun s2 =>
            (r.1, { s2 with proj := Function.update (Function.update s2.proj 0 co.1) 1 co.2, dim := 1 }))
    | .OnFace co =>
        some (r.1, { s with proj := Function.update (Function.update (Function.update s.proj 0 co.1) 1 co.2.1) 2 co.2.2 })
    | .OnSolid => some (r.1, s)
  else if s.dim = 3 then
    let r := tetProjectOrigin (s.vertices 0) (s.vertices 1) (s.vertices 2) (s.vertices 3)
    match r.2 with
    | .OnVertex i =>
        (s.swap 0 i).map (fun s2 =>
          (r.1, { s2 with proj := Function.update s2.proj 0 1, dim := 0 }))
    | .OnEdge i co =>
        let s2o := if i = 1 then s.swap 1 2 else if i = 2 then s.swap 1 3
          else if i = 3 then s.swap 0 2 else if i = 4 then s.swap 0 3
          else if i = 5 then (s.swap 0 2).bind (fun t => t.swap 1 3) else some s
        if i = 3 ∨ i = 4 then
          s2o.map (fun s2 =>
            (r.1, { s2 with proj := Function.update (Function.update s2.proj 0 co.2) 1 co.1, dim := 1 }))
        else
          s2o.map (fun s2 =>
            (r.1, { s2 with proj := Function.update (Function.update s2.proj 0 co.1) 1 co.2, dim := 1 }))
    | .OnFace i co =>
        if i = 0 then
          some (r.1, { s with proj := Function.update (Function.update (Function.update s.proj 0 co.1) 1 co.2.1) 2 co.2.2, dim := 2 })
        else if i = 1 then
          some (r.1, { s with vertices := Function.update s.vertices 2 (s.vertices 3), proj := Function.update (Function.update (Function.update s.proj 0 co.1) 1 co.2.1) 2 co.2.2, dim := 2 })
        else if i = 2 then
          some (r.1, { s with vertices := Function.update s.vertices 1 (s.vertices 3), proj := Function.update (Function.update (Function.update s.proj 0 co.1) 1 co.2.2) 2 co.2.1, dim := 2 })
        else
          some (r.1, { s with vertices := Function.update s.vertices 0 (s.vertices 3), proj := Function.update (Function.update (Function.update s.proj 0 co.2.2) 1 co.1) 2 co.2.1, dim := 2 })
    | .OnSolid => some (r.1, s)
  else none

/-- Correct outcome of `project_origin_and_reduce` on a dimension-1 simplex:
the returned point is the closest point of the segment, and either the
simplex was reduced to the closest vertex (with unit stored coordinate) or
the projection was interior and the state is untouched. -/
def ReducedOk1 (s : VoronoiSimplex) : Prop :=
  ∃ p s2, projectOriginAndReduce s = some (p, s2) ∧
    IsClosestPt2 (s.vertices 0) (s.vertices 1) p ∧
    ((s2.dim = 0 ∧ s2.proj 0 = 1 ∧ p = s2.vertices 0 ∧
        (s2.vertices 0 = s.vertices 0 ∨ s2.vertices 0 = s.vertices 1)) ∨
      s2 = s)

/-- Correct outcome of `project_origin_and_reduce` on a dimension-2 simplex:
the returned point is the closest point of the triangle; the state is reduced
to the minimal sub-feature containing it, with the sub-feature vertices
occupying the first slots and the stored coordinates the barycentric
coordinates of the projection in their new order; the interior (face) case
keeps all vertices and the previous-state fields. -/
def ReducedOk2 (s : VoronoiSimplex) : Prop :=
  ∃ p s2, projectOriginAndReduce s = some (p, s2) ∧
    IsClosestPt3 (s.vertices 0) (s.vertices 1) (s.vertices 2) p ∧
    ((s2.dim = 0 ∧ s2.proj 0 = 1 ∧ p = s2.vertices 0 ∧
        (∃ j : Fin 4, (j : ℕ) ≤ 2 ∧ s2.vertices 0 = s.vertices j)) ∨
      (s2.dim = 1 ∧ 0 ≤ s2.proj 0 ∧ 0 ≤ s2.proj 1 ∧ s2.proj 0 + s2.proj 1 = 1 ∧
        p = s2.proj 0 • s2.vertices 0 + s2.proj 1 • s2.vertices 1 ∧
        (∃ j k : Fin 4, (j : ℕ) ≤ 2 ∧ (k : ℕ) ≤ 2 ∧ j ≠ k ∧
          s2.vertices 0 = s.vertices j ∧ s2.vertices 1 = s.vertices k)) ∨
      (s2.dim = 2 ∧ s2.vertices = s.vertices ∧ s2.prev_vertices = s.prev_vertices ∧
        s2.prev_proj = s.prev_proj ∧ s2.prev_dim = s.prev_dim ∧
        0 ≤ s2.proj 0 ∧ 0 ≤ s2.proj 1 ∧ 0 ≤ s2.proj 2 ∧
        s2.proj 0 + s2.proj 1 + s2.proj 2 = 1 ∧
        p = s2.proj 0 • s2.vertices 0 + s2.proj 1 • s2.vertices 1 +
          s2.proj 2 • s2.vertices 2))

theorem reduce_dim1 (s : VoronoiSimplex) (h1 : s.dim = 1) : ReducedOk1 s := by
  obtain ⟨hm, hf⟩ := segmentProjectOrigin_correct (s.vertices 0) (s.vertices 1)
  unfold ReducedOk1
  simp only [projectOriginAndReduce, h1]
  norm_num
  rcases hl : (segmentProjectOrigin (s.vertices 0) (s.vertices 1)).2 with i | co
  · rw [hl] at hf
    simp only [SegLocFacts] at hf
    fin_cases i
    · refine ⟨_, _, rfl, hm, Or.inl ⟨rfl, ?_, ?_, Or.inl rfl⟩⟩
      · simp [Function.update]
      · simpa using hf
    · refine ⟨_, _, rfl, hm, Or.inl ⟨rfl, ?_, ?_, Or.inr ?_⟩⟩
      · simp [Function.update]
      · simpa [VoronoiSimplex.swap, swapFn] using hf
      · simp [VoronoiSimplex.swap, swapFn]
  · exact ⟨_, _, rfl, hm, Or.inr rfl⟩

theorem reduce_dim2 (s : VoronoiSimplex) (h2 : s.dim = 2)
    (hnd : V3.cross (s.vertices 1 - s.vertices 0) (s.vertices 2 - s.vertices 0) ≠ 0) :
    ReducedOk2 s := by
  obtain ⟨hm, hf⟩ :=
    triangleProjectOrigin_correct (s.vertices 0) (s.vertices 1) (s.vertices 2) hnd
  unfold ReducedOk2
  simp only [projectOriginAndReduce, h2, if_neg (show ¬(2 : ℕ) = 0 by norm_num),
    if_neg (show ¬(2 : ℕ) = 1 by norm_num), if_pos (show (2 : ℕ) = 2 from rfl)]
  rcases hl : (triangleProjectOrigin (s.vertices 0) (s.vertices 1) (s.vertices 2)).2 with
    i | ⟨e, co⟩ | co | hsolid
  · rw [hl] at hf
    simp only [TriLocFacts] at hf
    fin_cases i
    · rw [if_pos (by decide)] at hf
      refine ⟨_, _, rfl, hm, Or.inl ⟨rfl, by simp [Function.update], ?_, ?_⟩⟩
      · rw [hf]
        simp [VoronoiSimplex.swap, swapFn, Fin.castLE]
      · exact ⟨0, by norm_num, by simp [VoronoiSimplex.swap, swapFn, Fin.castLE]⟩
    · rw [if_neg (by decide), if_pos (by decide)] at hf
      refine ⟨_, _, rfl, hm, Or.inl ⟨rfl, by simp [Function.update], ?_, ?_⟩⟩
      · rw [hf]
        simp [VoronoiSimplex.swap, swapFn, Fin.castLE]
      · exact ⟨1, by norm_num, by simp [VoronoiSimplex.swap, swapFn, Fin.castLE]⟩
    · rw [if_neg (by decide), if_neg (by decide)] at hf
      refine ⟨_, _, rfl, hm, Or.inl ⟨rfl, by simp [Function.update], ?_, ?_⟩⟩
      · rw [hf]
        simp [VoronoiSimplex.swap, swapFn, Fin.castLE]
      · exact ⟨2, by norm_num, by simp [VoronoiSimplex.swap, swapFn, Fin.castLE]⟩
  · rw [hl] at hf
    simp only [TriLocFacts] at hf
    obtain ⟨hco1, hco2, hcos, hcop⟩ := hf
    fin_cases e
    · rw [if_pos (by decide)] at hcop
      refine ⟨_, _, rfl, hm, Or.inr (Or.inl ⟨rfl,
        by simpa [Function.update] using hco1,
        by simpa [Function.update] using hco2,
        by simpa [Function.update] using hcos, ?_, ?_⟩)⟩
      · rw [hcop]
        ext <;> simp [Function.update]
      · refine Exists.intro 0 (Exists.intro 1 ?_)
        exact ⟨by norm_num, by norm_num, by decide, rfl, rfl⟩
    · rw [if_neg (by decide), if_pos (by decide)] at hcop
      refine ⟨_, _, rfl, hm, Or.inr (Or.inl ⟨rfl,
        by simpa [Function.update, VoronoiSimplex.swap] using hco2,
        by simpa [Function.update, VoronoiSimplex.swap] using hco1, ?_, ?_, ?_⟩)⟩
      · simp [Function.update, VoronoiSimplex.swap]
        linarith [hcos]
      · rw [hcop]
        ext <;> simp [Function.update, VoronoiSimplex.swap, swapFn] <;> ring
      · refine Exists.intro 2 (Exists.intro 1 ?_)
        exact ⟨by norm_num, by norm_num, by decide,
          by simp [VoronoiSimplex.swap, swapFn], by simp [VoronoiSimplex.swap, swapFn]⟩
    · rw [if_neg (by decide), if_neg (by decide)] at hcop
      refine ⟨_, _, rfl, hm, Or.inr (Or.inl ⟨rfl,
        by simpa [Function.update, VoronoiSimplex.swap] using hco1,
        by simpa [Function.update, VoronoiSimplex.swap] using hco2,
        by simpa [Function.update, VoronoiSimplex.swap] using hcos, ?_, ?_⟩)⟩
      · rw [hcop]
        ext <;> simp [Function.update, VoronoiSimplex.swap, swapFn] <;> ring
      · refine Exists.intro 0 (Exists.intro 2 ?_)
        exact ⟨by norm_num, by norm_num, by decide,
          by simp [VoronoiSimplex.swap, swapFn], by simp [VoronoiSimplex.swap, swapFn]⟩
  · rw [hl] at hf
    simp only [TriLocFacts] at hf
    obtain ⟨hco1, hco2, hco3, hcos, hcop⟩ := hf
    refine ⟨_, _, rfl, hm, Or.inr (Or.inr ⟨rfl, rfl, rfl, rfl, rfl,
      by simpa [Function.update] using hco1,
      by simpa [Function.update] using hco2,
      by simpa [Function.update] using hco3,
      by simpa [Function.update] using hcos, ?_⟩)⟩
    rw [hcop]
    ext <;> simp [Function.update]
  · rw [hl] at hf
    simp only [TriLocFacts] at hf

/-- Vertex 0 of the panic witness tetrahedron. -/
noncomputable def vaC1 : V3 := ⟨2, 1, 0⟩

/-- Vertex 1 of the panic witness tetrahedron. -/
noncomputable def vbC1 : V3 := ⟨2, -1, 0⟩

/-- Vertex 2 of the panic witness tetrahedron. -/
noncomputable def vcC1 : V3 := ⟨2, 0, 1⟩

/-- Vertex 3 of the panic witness tetrahedron: the unique closest point of
the tetrahedron to the origin. -/
noncomputable def vdC1 : V3 := ⟨1, 0, 0⟩

/-- A concrete non-degenerate dimension-3 simplex whose closest point is its
fourth vertex. -/
noncomputable def simplexC1p : VoronoiSimplex :=
  { new with dim := 3, vertices := fun i =>
      if i = 0 then vaC1 else if i = 1 then vbC1 else if i = 2 then vcC1 else vdC1 }

theorem segC1_ab : segmentProjectOrigin vaC1 vbC1 = (⟨2, 0, 0⟩, .OnEdge (1/2, 1/2)) := by
  simp only [segmentProjectOrigin]
  norm_num [vaC1, vbC1, V3.dot, V3.normSq]

theorem segC1_bd : segmentProjectOrigin vbC1 vdC1 = (vdC1, .OnVertex 1) := by
  simp only [segmentProjectOrigin]
  norm_num [vbC1, vdC1, V3.dot, V3.normSq]

theorem segC1_da : segmentProjectOrigin vdC1 vaC1 = (vdC1, .OnVertex 0) := by
  simp only [segmentProjectOrigin]
  norm_num [vaC1, vdC1, V3.dot, V3.normSq]

theorem segC1_ac : segmentProjectOrigin vaC1 vcC1 = (⟨2, 1/2, 1/2⟩, .OnEdge (1/2, 1/2)) := by
  simp only [segmentProjectOrigin]
  norm_num [vaC1, vcC1, V3.dot, V3.normSq]

theorem segC1_cd : segmentProjectOrigin vcC1 vdC1 = (vdC1, .OnVertex 1) := by
  simp only [segmentProjectOrigin]
  norm_num [vcC1, vdC1, V3.dot, V3.normSq]

theorem segC1_bc : segmentProjectOrigin vbC1 vcC1 = (⟨2, -1/2, 1/2⟩, .OnEdge (1/2, 1/2)) := by
  simp only [segmentProjectOrigin]
  norm_num [vbC1, vcC1, V3.dot, V3.normSq]

theorem segC1_db : segmentProjectOrigin vdC1 vbC1 = (vdC1, .OnVertex 0) := by
  simp only [segmentProjectOrigin]
  norm_num [vbC1, vdC1, V3.dot, V3.normSq]

theorem triC1_0 : triangleProjectOrigin vaC1 vbC1 vcC1 = (⟨2, 0, 0⟩, .OnFace (1/2, 1/2, 0)) := by
  have hg : 0 ≤ triVa vaC1 vbC1 vcC1 ∧ 0 ≤ triVb vaC1 vbC1 vcC1 ∧
      0 ≤ triVc vaC1 vbC1 vcC1 := by
    norm_num [triVa, triVb, triVc, triS, V3.dot, V3.normSq, vaC1, vbC1, vcC1]
  simp only [triangleProjectOrigin]
  rw [if_pos hg]
  norm_num [triQ, triVa, triVb, triVc, triS, V3.dot, V3.normSq, vaC1, vbC1, vcC1]

theorem triC1_1 : triangleProjectOrigin vaC1 vbC1 vdC1 = (vdC1, .OnVertex 2) := by
  have hg : ¬(0 ≤ triVa vaC1 vbC1 vdC1 ∧ 0 ≤ triVb vaC1 vbC1 vdC1 ∧
      0 ≤ triVc vaC1 vbC1 vdC1) := by
    norm_num [triVa, triVb, triVc, triS, V3.dot, V3.normSq, vaC1, vbC1, vdC1]
  simp only [triangleProjectOrigin]
  rw [if_neg hg]
  rw [segC1_ab, segC1_bd, segC1_da]
  simp only [pickCloser, mapSegLocToTri]
  norm_num [V3.normSq, V3.dot, vdC1]

theorem triC1_2 : triangleProjectOrigin vaC1 vcC1 vdC1 = (vdC1, .OnVertex 2) := by
  have hg : ¬(0 ≤ triVa vaC1 vcC1 vdC1 ∧ 0 ≤ triVb vaC1 vcC1 vdC1 ∧
      0 ≤ triVc vaC1 vcC1 vdC1) := by
    norm_num [triVa, triVb, triVc, triS, V3.dot, V3.normSq, vaC1, vcC1, vdC1]
  simp only [triangleProjectOrigin]
  rw [if_neg hg]
  rw [segC1_ac, segC1_cd, segC1_da]
  simp only [pickCloser, mapSegLocToTri]
  norm_num [V3.normSq, V3.dot, vdC1]

theorem triC1_3 : triangleProjectOrigin vbC1 vcC1 vdC1 = (vdC1, .OnVertex 2) := by
  have hg : ¬(0 ≤ triVa vbC1 vcC1 vdC1 ∧ 0 ≤ triVb vbC1 vcC1 vdC1 ∧
      0 ≤ triVc vbC1 vcC1 vdC1) := by
    norm_num [triVa, triVb, triVc, triS, V3.dot, V3.normSq, vbC1, vcC1, vdC1]
  simp only [triangleProjectOrigin]
  rw [if_neg hg]
  rw [segC1_bc, segC1_cd, segC1_db]
  simp only [pickCloser, mapSegLocToTri]
  norm_num [V3.normSq, V3.dot, vdC1]

theorem tetC1 : tetProjectOrigin vaC1 vbC1 vcC1 vdC1 = (vdC1, .OnVertex 3) := by
  have hg : ¬(0 ≤ tetAlpha vaC1 vbC1 vcC1 vdC1 ∧ 0 ≤ tetBeta vaC1 vbC1 vcC1 vdC1 ∧
      0 ≤ tetGamma vaC1 vbC1 vcC1 vdC1 ∧ 0 ≤ tetDelta vaC1 vbC1 vcC1 vdC1) := by
    norm_num [tetAlpha, tetBeta, tetGamma, tetDelta, tetDet, V3.dot, V3.cross,
      vaC1, vbC1, vcC1, vdC1]
  simp only [tetProjectOrigin]
  rw [if_neg hg]
  rw [triC1_0, triC1_1, triC1_2, triC1_3]
  simp only [pickCloser, mapTriLocToTet, tetFaceVertex]
  norm_num [V3.normSq, V3.dot, vdC1]
  decide

/-- The fourth vertex of the panic witness tetrahedron is its closest point
to the origin. -/
theorem tetVertexDClosest : IsClosestPt4 vaC1 vbC1 vcC1 vdC1 vdC1 := by
  constructor
  · exact ⟨0, 0, 0, 1, le_refl 0, le_refl 0, le_refl 0, by norm_num, by norm_num,
      by ext <;> norm_num [vaC1, vbC1, vcC1, vdC1]⟩
  · intro w1 w2 w3 w4 h1 h2 h3 h4 hs
    have hnd : V3.normSq vdC1 = 1 := by norm_num [V3.normSq, V3.dot, vdC1]
    have hxval : w1 • vaC1 + w2 • vbC1 + w3 • vcC1 + w4 • vdC1 =
        ⟨2 * w1 + 2 * w2 + 2 * w3 + w4, w1 - w2, w3⟩ := by
      ext <;> simp [vaC1, vbC1, vcC1, vdC1] <;> ring
    rw [hnd, hxval]
    simp only [V3.normSq, V3.dot]
    nlinarith [sq_nonneg (w1 - w2), sq_nonneg w3, sq_nonneg (w1 + w2 + w3)]

/-- C1: `project_origin_and_reduce()` does not return on every non-degenerate
dimension-3 simplex: on this concrete simplex the closest point of the
tetrahedron is the fourth stored vertex, the projection locates `OnVertex 3`,
and the vertex reduction calls `swap(0, 3)`, whose `prev_proj.swap` indexes
the 3-element `prev_proj` array out of bounds and panics (modelled `none`) —
instead of returning the closest point with the claimed vertex reduction.
The same out-of-bounds panic is reached by the edge reductions `ad`
(`swap(1, 3)`), `bd` (`swap(0, 3)`) and `cd` (`swap(0, 2)` then
`swap(1, 3)`). -/
theorem project_origin_and_reduce_panics :
    simplexC1p.dim = 3 ∧
    tetDet (simplexC1p.vertices 0) (simplexC1p.vertices 1) (simplexC1p.vertices 2)
      (simplexC1p.vertices 3) ≠ 0 ∧
    IsClosestPt4 (simplexC1p.vertices 0) (simplexC1p.vertices 1)
      (simplexC1p.vertices 2) (simplexC1p.vertices 3) (simplexC1p.vertices 3) ∧
    (tetProjectOrigin (simplexC1p.vertices 0) (simplexC1p.vertices 1)
        (simplexC1p.vertices 2) (simplexC1p.vertices 3)).2 =
      TetrahedronPointLocation.OnVertex 3 ∧
    projectOriginAndReduce simplexC1p = none := by
  have hv0 : simplexC1p.vertices 0 = vaC1 := rfl
  have hv1 : simplexC1p.vertices 1 = vbC1 := rfl
  have hv2 : simplexC1p.vertices 2 = vcC1 := rfl
  have hv3 : simplexC1p.vertices 3 = vdC1 := rfl
  refine ⟨rfl, ?_, ?_, ?_, ?_⟩
  · rw [hv0, hv1, hv2, hv3]
    norm_num [tetDet, V3.dot, V3.cross, vaC1, vbC1, vcC1, vdC1]
  · rw [hv0, hv1, hv2, hv3]
    exact tetVertexDClosest
  · rw [hv0, hv1, hv2, hv3, tetC1]
  · have hd : simplexC1p.dim = 3 := rfl
    simp only [projectOriginAndReduce, hd, if_neg (show ¬(3 : ℕ) = 0 by norm_num),
      if_neg (show ¬(3 : ℕ) = 1 by norm_num), if_neg (show ¬(3 : ℕ) = 2 by norm_num),
      if_pos (show (3 : ℕ) = 3 from rfl), hv0, hv1, hv2, hv3, tetC1]
    rfl

end VoronoiSimplex

end NCollide
